import Mathlib

/-!
# Verification of the Pantry Party real-time collaboration server

A shallow embedding of `src/server/websocket-server.js`: the in-memory session
store, client registry, command handlers, broadcaster and TTL reaper, together
with proofs of the behavioural properties stated in the specification.

Modelling conventions:
* JavaScript `Map`s and plain objects used as dictionaries become association
  lists with `Map`-style update-in-place semantics (`JsMap.set` replaces the
  value at an existing key, keeping its position, and appends otherwise).
* `uuidv4()` is modelled by a counter `nextId` carried in the server state:
  each generated id is the current counter value and the counter increments,
  so generated ids are pairwise distinct and distinct from every id the
  server has handed out before — the freshness property of `uuidv4`.
* WebSocket connections are identified by natural numbers; the set of
  connections whose `readyState` is `OPEN` is the list `openConns`.
* `Date.now()` becomes an explicit `now : Nat` argument.
* `String.prototype.toLowerCase()` is modelled on the ASCII range.
-/

namespace PantryParty

/-- ASCII lowering of one character, mirroring what `toLowerCase` does on
the ASCII range: `'A'..'Z'` (codes 65–90) shift by 32, all else unchanged. -/
def lowerChar (c : Char) : Char :=
  if h : 65 ≤ c.toNat ∧ c.toNat ≤ 90 then
    ⟨⟨⟨c.toNat + 32, by omega⟩⟩, Or.inl (by
      change (⟨c.toNat + 32, by omega⟩ : Fin _) < (⟨0xd800, by omega⟩ : Fin _)
      exact Fin.mk_lt_mk.mpr (by omega))⟩
  else c

/-- js `s.toLowerCase()` (ASCII model). -/
def jsToLower (s : String) : String :=
  ⟨s.data.map lowerChar⟩

theorem toNat_lowerChar (c : Char) :
    (lowerChar c).toNat = if 65 ≤ c.toNat ∧ c.toNat ≤ 90 then c.toNat + 32 else c.toNat := by
  unfold lowerChar
  by_cases h : 65 ≤ c.toNat ∧ c.toNat ≤ 90
  · rw [dif_pos h, if_pos h]
    rfl
  · rw [dif_neg h, if_neg h]

theorem lowerChar_eq_self (c : Char) (h : ¬(65 ≤ c.toNat ∧ c.toNat ≤ 90)) :
    lowerChar c = c := by
  unfold lowerChar
  rw [dif_neg h]

theorem lowerChar_idem (c : Char) : lowerChar (lowerChar c) = lowerChar c := by
  by_cases h : 65 ≤ c.toNat ∧ c.toNat ≤ 90
  · have h1 := toNat_lowerChar c
    rw [if_pos h] at h1
    exact lowerChar_eq_self _ (by omega)
  · rw [lowerChar_eq_self c h]
    exact lowerChar_eq_self c h

theorem jsToLower_idem (s : String) : jsToLower (jsToLower s) = jsToLower s := by
  unfold jsToLower
  simp only [List.map_map]
  exact congrArg String.mk (List.map_congr_left fun c _ => lowerChar_idem c)

/-!
## Association lists with JavaScript `Map` semantics

`set` updates the value of an existing key in place (keeping its position,
like `Map.prototype.set` / property assignment) and appends a new key at the
end; `erase` removes the entry (like `Map.prototype.delete` / `delete obj[k]`).
-/

namespace JsMap

variable {α : Type} {β : Type} [DecidableEq α]

/-- js `m.get(k)` / `obj[k]`. -/
def get (k : α) : List (α × β) → Option β
  | [] => none
  | e :: rest => if e.1 = k then some e.2 else get k rest

/-- js `m.set(k, v)` / `obj[k] = v`. -/
def set (k : α) (v : β) : List (α × β) → List (α × β)
  | [] => [(k, v)]
  | e :: rest => if e.1 = k then (k, v) :: rest else e :: set k v rest

/-- js `m.delete(k)` / `delete obj[k]`. -/
def erase (k : α) : List (α × β) → List (α × β)
  | [] => []
  | e :: rest => if e.1 = k then rest else e :: erase k rest

theorem get_set_self (k : α) (v : β) (m : List (α × β)) : get k (set k v m) = some v := by
  induction m with
  | nil => simp [get, set]
  | cons e rest ih =>
    by_cases h : e.1 = k
    · simp [get, set, h]
    · simp [get, set, h, ih]

theorem get_set_ne (k j : α) (v : β) (m : List (α × β)) (hne : j ≠ k) :
    get j (set k v m) = get j m := by
  have hkj : ¬(k = j) := fun hh => hne hh.symm
  induction m with
  | nil => simp only [set, get, if_neg hkj]
  | cons e rest ih =>
    by_cases h : e.1 = k
    · simp only [set, if_pos h, get, if_neg hkj, h]
    · simp only [set, if_neg h, get, ih]

theorem mem_set (k : α) (v : β) (m : List (α × β)) (e : α × β) (h : e ∈ set k v m) :
    e = (k, v) ∨ e ∈ m := by
  induction m with
  | nil => simpa [set] using h
  | cons f rest ih =>
    by_cases hf : f.1 = k
    · simp only [set, if_pos hf, List.mem_cons] at h
      rcases h with h | h
      · exact Or.inl h
      · exact Or.inr (List.mem_cons_of_mem _ h)
    · simp only [set, if_neg hf, List.mem_cons] at h
      rcases h with h | h
      · exact Or.inr (h ▸ List.mem_cons_self _ _)
      · rcases ih h with h2 | h2
        · exact Or.inl h2
        · exact Or.inr (List.mem_cons_of_mem _ h2)

theorem mem_of_mem_set_ne (k : α) (v : β) (m : List (α × β)) (e : α × β)
    (h : e ∈ set k v m) (hne : e.1 ≠ k) : e ∈ m := by
  rcases mem_set k v m e h with h2 | h2
  · exact absurd (congrArg Prod.fst h2) hne
  · exact h2

theorem erase_sublist (k : α) (m : List (α × β)) : (erase k m).Sublist m := by
  induction m with
  | nil => simp [erase]
  | cons e rest ih =>
    by_cases h : e.1 = k
    · rw [erase, if_pos h]
      exact List.sublist_cons_self e rest
    · rw [erase, if_neg h]
      exact ih.cons₂ e

theorem mem_erase (k : α) (m : List (α × β)) (e : α × β) (h : e ∈ erase k m) : e ∈ m :=
  (erase_sublist k m).mem h

theorem get_eq_none (k : α) (m : List (α × β)) (h : ∀ e ∈ m, e.1 ≠ k) : get k m = none := by
  induction m with
  | nil => rfl
  | cons e rest ih =>
    simp only [get, if_neg (h e (List.mem_cons_self e rest))]
    exact ih fun f hf => h f (List.mem_cons_of_mem e hf)

theorem get_erase_self (k : α) (m : List (α × β))
    (hnd : (m.map Prod.fst).Nodup) : get k (erase k m) = none := by
  induction m with
  | nil => rfl
  | cons e rest ih =>
    simp only [List.map_cons, List.nodup_cons] at hnd
    by_cases h : e.1 = k
    · simp only [erase, if_pos h]
      exact get_eq_none k rest fun f hf hk =>
        hnd.1 (h ▸ hk ▸ List.mem_map_of_mem Prod.fst hf)
    · simp only [erase, if_neg h, get, if_neg h]
      exact ih hnd.2

theorem get_erase_of_get_none (k j : α) (m : List (α × β)) (h : get k m = none) :
    get k (erase j m) = none := by
  induction m with
  | nil => rfl
  | cons e rest ih =>
    simp only [get] at h
    by_cases he : e.1 = k
    · simp [he] at h
    · simp only [if_neg he] at h
      by_cases hj : e.1 = j
      · simp only [erase, if_pos hj]
        exact h
      · simp only [erase, if_neg hj, get, if_neg he]
        exact ih h

theorem keys_nodup_erase (k : α) (m : List (α × β)) (hnd : (m.map Prod.fst).Nodup) :
    ((erase k m).map Prod.fst).Nodup :=
  (((erase_sublist k m).map Prod.fst).nodup hnd)

theorem mem_set_of_ne (k : α) (v : β) (m : List (α × β)) (e : α × β)
    (he : e ∈ m) (hne : e.1 ≠ k) : e ∈ set k v m := by
  induction m with
  | nil => simp at he
  | cons f rest ih =>
    by_cases hf : f.1 = k
    · rw [set, if_pos hf]
      rcases List.mem_cons.mp he with h | h
      · subst h
        exact absurd hf hne
      · exact List.mem_cons_of_mem _ h
    · rw [set, if_neg hf]
      rcases List.mem_cons.mp he with h | h
      · exact h ▸ List.mem_cons_self _ _
      · exact List.mem_cons_of_mem _ (ih h)

theorem get_erase_ne (k j : α) (m : List (α × β)) (hne : k ≠ j) :
    get k (erase j m) = get k m := by
  induction m with
  | nil => rfl
  | cons e rest ih =>
    by_cases hj : e.1 = j
    · rw [erase, if_pos hj, get, if_neg (by rw [hj]; exact fun h => hne h.symm)]
    · rw [erase, if_neg hj, get, get]
      by_cases hk : e.1 = k
      · rw [if_pos hk, if_pos hk]
      · rw [if_neg hk, if_neg hk, ih]

theorem get_eq_some_mem (k : α) (m : List (α × β)) (v : β) (h : get k m = some v) :
    (k, v) ∈ m := by
  induction m with
  | nil => simp [get] at h
  | cons e rest ih =>
    simp only [get] at h
    by_cases he : e.1 = k
    · rw [if_pos he] at h
      have hev : e = (k, v) := Prod.ext he (Option.some.inj h)
      exact hev ▸ List.mem_cons_self e rest
    · rw [if_neg he] at h
      exact List.mem_cons_of_mem _ (ih h)

end JsMap

/-- Replace the first element satisfying `p` by its image under `f`
(js `array.find(...)` followed by mutation of the found object). -/
def updateFirst {α : Type} (p : α → Bool) (f : α → α) : List α → List α
  | [] => []
  | x :: xs => if p x then f x :: xs else x :: updateFirst p f xs

/-- Remove the first element satisfying `p`, returning it and the remaining
list (js `findIndex` + `splice(index, 1)`); `none` when `findIndex` gives -1. -/
def removeFirst {α : Type} (p : α → Bool) : List α → Option (α × List α)
  | [] => none
  | x :: xs =>
    if p x then some (x, xs)
    else (removeFirst p xs).map fun r => (r.1, x :: r.2)

/-!
## Data model (§3 of the source file's state)
-/

/-- A value stored in `session.votes[userId][recipeId]`; `"neutral"` is never
stored (it erases the entry), per the protocol `voteType ∈ {up, down, neutral}`. -/
inductive Vote where
  | up
  | down
deriving DecidableEq, Repr

/-- A `recipes:vote` command's `voteType` field. -/
inductive VoteType where
  | up
  | down
  | neutral
deriving DecidableEq, Repr

/-- The vote stored for a `voteType`, `none` for `"neutral"`. -/
def VoteType.toVote : VoteType → Option Vote
  | .up => some .up
  | .down => some .down
  | .neutral => none

structure Participant where
  id : String
  name : String
  joinedAt : Nat
  isConnected : Bool
  reconnectedAt : Option Nat := none
  disconnectedAt : Option Nat := none
deriving DecidableEq, Repr

structure Ingredient where
  id : Nat
  name : String
  addedBy : String
  addedAt : Nat
deriving DecidableEq, Repr

/-- A recipe; `title` stands for the opaque client-supplied body. -/
structure Recipe where
  id : Nat
  title : String
  createdAt : Nat
  votes : Int
  voterIds : List String
deriving DecidableEq, Repr

/-- The per-user vote maps: `userId → (recipeId → vote)`. -/
abbrev Votes := List (String × List (Nat × Vote))

structure Session where
  id : String
  hostId : String
  hostName : String
  createdAt : Nat
  lastActivity : Nat
  allowRecipeGeneration : Bool
  participants : List Participant
  ingredients : List Ingredient
  blacklist : List String
  context : String
  recipes : List Recipe
  votes : Votes
deriving DecidableEq, Repr

/-- js `clients` map values: `{userId, sessionId, username}`. -/
structure ClientInfo where
  userId : String
  sessionId : String
  username : String
deriving DecidableEq, Repr

/-- The whole server state: the three module-level maps, the uuid supply and
the set of open connections. -/
structure ServerState where
  sessions : List (String × Session)
  clients : List (Nat × ClientInfo)
  userConnections : List (String × Nat)
  openConns : List Nat
  nextId : Nat
deriving DecidableEq, Repr

def ServerState.init : ServerState :=
  { sessions := [], clients := [], userConnections := [], openConns := [], nextId := 0 }

/-- Outbound events (§6 of the spec); each constructor carries the fields the
source puts in the JSON message. -/
inductive Event where
  | sessionCreated (session : Session)
  | sessionJoined (session : Option Session)
  | sessionError (message : String)
  | sessionExpired (sessionId : String)
  | sessionEnded (message : String)
  | participantJoined (id name : String) (joinedAt reconnectedAt : Option Nat)
  | participantDisconnected (userId username : String)
  | ingredientsAdded (ingredient : Ingredient)
  | ingredientsRemoved (ingredientId : Nat) (ingredient : Ingredient)
  | ingredientsBlacklisted (ingredientName : String) (blacklist : List String)
      (ingredients : List Ingredient)
  | recipesAdded (recipe : Recipe)
  | recipesVoted (recipeId : Nat) (voteType : VoteType) (userId : String)
      (recipes : List Recipe)
  | recipesRemoved (recipeId : Nat) (recipe : Recipe)
  | contextUpdated (context : String)
  | hostTransferred (newHostId newHostName : String) (session : Session)
  | hostPermissionsUpdated (allowRecipeGeneration : Bool) (session : Session)
  | errorMsg (message : String)
deriving DecidableEq, Repr

/-- The sequence of `ws.send` calls a handler performs: (connection, message). -/
abbrev Sends := List (Nat × Event)

/-- `SESSION_TIMEOUT = 4 * 60 * 60 * 1000`. -/
def SESSION_TIMEOUT : Nat := 4 * 60 * 60 * 1000

/-!
## Server operations, translated function by function
-/

/-- js `createSession(sessionId, hostId, hostName)` — the session object built;
the caller stores it in the map. -/
def createSession (sessionId hostId hostName : String) (now : Nat) : Session :=
  { id := sessionId
    hostId := hostId
    hostName := hostName
    createdAt := now
    lastActivity := now
    allowRecipeGeneration := true
    participants := [{ id := hostId, name := hostName, joinedAt := now, isConnected := true }]
    ingredients := []
    blacklist := []
    context := ""
    recipes := []
    votes := [] }

/-- js `getSession(sessionId)`: returns the session if present and unexpired;
an expired session is deleted from the map as a side effect. The updated
map is returned alongside. -/
def getSession (sessions : List (String × Session)) (now : Nat) (sessionId : String) :
    Option Session × List (String × Session) :=
  match JsMap.get sessionId sessions with
  | none => (none, sessions)
  | some s =>
    if now - s.lastActivity > SESSION_TIMEOUT then (none, JsMap.erase sessionId sessions)
    else (some s, sessions)

/-- js `updateSessionActivity(sessionId)`. -/
def updateSessionActivity (sessions : List (String × Session)) (now : Nat)
    (sessionId : String) : List (String × Session) :=
  match JsMap.get sessionId sessions with
  | none => sessions
  | some s => JsMap.set sessionId { s with lastActivity := now } sessions

/-- The session mutation performed by js `addParticipant`: reconnect the
existing participant or append a new one, then bump `lastActivity`. -/
def apSession (s : Session) (now : Nat) (userId username : String) : Session :=
  let s2 :=
    if s.participants.any (fun p => p.id == userId) then
      { s with participants := (updateFirst (fun p => p.id == userId)
          (fun p => { p with isConnected := true, reconnectedAt := some now })
          s.participants) }
    else
      { s with participants := (s.participants ++
          [{ id := userId, name := username, joinedAt := now, isConnected := true }]) }
  { s2 with lastActivity := now }

/-- js `addParticipant(sessionId, userId, username)`: resolve the session,
apply `apSession` to it, store it. Returns the (mutated) session as seen by
the caller, plus the updated session map. -/
def addParticipant (sessions : List (String × Session)) (now : Nat)
    (sessionId userId username : String) :
    Option Session × List (String × Session) :=
  match getSession sessions now sessionId with
  | (none, sessions2) => (none, sessions2)
  | (some s, sessions2) =>
    let s3 := apSession s now userId username
    (some s3, JsMap.set sessionId s3 sessions2)

/-- The session mutation performed by js `removeParticipant`: flip
`isConnected` off and stamp `disconnectedAt` (no activity bump). -/
def rpSession (s : Session) (now : Nat) (userId : String) : Session :=
  { s with participants := (updateFirst (fun p => p.id == userId)
      (fun p => { p with isConnected := false, disconnectedAt := some now })
      s.participants) }

/-- js `removeParticipant(sessionId, userId)`. -/
def removeParticipant (sessions : List (String × Session)) (now : Nat)
    (sessionId userId : String) :
    Option Session × List (String × Session) :=
  match getSession sessions now sessionId with
  | (none, sessions2) => (none, sessions2)
  | (some s, sessions2) =>
    let s2 := rpSession s now userId
    (some s2, JsMap.set sessionId s2 sessions2)

/-- js `broadcastToSession(sessionId, message, excludeUserId)`: re-resolves the
session (an expired one is deleted and nothing is sent), then sends to every
client registered in that session, excluding `excludeUserId`, skipping
connections that are not `OPEN`. -/
def broadcastToSession (st : ServerState) (now : Nat) (sessionId : String)
    (message : Event) (excludeUserId : Option String) : ServerState × Sends :=
  match getSession st.sessions now sessionId with
  | (none, sessions2) => ({ st with sessions := sessions2 }, [])
  | (some _, sessions2) =>
    ({ st with sessions := sessions2 },
      (st.clients.filter fun e =>
        e.2.sessionId == sessionId
          && !(excludeUserId == some e.2.userId)
          && st.openConns.contains e.1).map
        fun e => (e.1, message))

/-- A new connection is accepted (`wss.on("connection", ...)`); the
`connection:established` reply carries only a log-correlation id and is
not modelled. -/
def acceptConnection (st : ServerState) (conn : Nat) : ServerState :=
  { st with openConns := st.openConns ++ [conn] }

/-- js `handleSessionCreate(ws, data)`. -/
def handleSessionCreate (st : ServerState) (now : Nat) (conn : Nat)
    (sessionId userId username : String) : ServerState × Sends :=
  match getSession st.sessions now sessionId with
  | (some existingSession, sessions2) =>
    if existingSession.hostId = userId then
      -- host rejoin of an existing session
      let ap := addParticipant sessions2 now sessionId userId username
      let st2 := { st with
        sessions := ap.2
        clients := JsMap.set conn ⟨userId, sessionId, username⟩ st.clients
        userConnections := JsMap.set userId conn st.userConnections }
      -- `existingSession` is the stored object, mutated in place by
      -- `addParticipant`, so the snapshot sent reflects the update
      let snapshot := ap.1.getD existingSession
      let br := broadcastToSession st2 now sessionId
        (.participantJoined userId username none (some now)) (some userId)
      (br.1, (conn, .sessionCreated snapshot) :: br.2)
    else
      ({ st with sessions := sessions2 },
        [(conn, .sessionError "Session already exists")])
  | (none, sessions2) =>
    let session := createSession sessionId userId username now
    ({ st with
        sessions := JsMap.set sessionId session sessions2
        clients := JsMap.set conn ⟨userId, sessionId, username⟩ st.clients
        userConnections := JsMap.set userId conn st.userConnections },
      [(conn, .sessionCreated session)])

/-- The part of js `handleSessionJoin` after the already-connected check:
add the participant, register the connection, reply, broadcast. -/
def sessionJoinBody (st : ServerState) (sessions2 : List (String × Session))
    (now : Nat) (conn : Nat) (sessionId userId username : String) :
    ServerState × Sends :=
  let ap := addParticipant sessions2 now sessionId userId username
  let st2 := { st with
    sessions := ap.2
    clients := JsMap.set conn ⟨userId, sessionId, username⟩ st.clients
    userConnections := JsMap.set userId conn st.userConnections }
  let br := broadcastToSession st2 now sessionId
    (.participantJoined userId username (some now) none) (some userId)
  (br.1, (conn, .sessionJoined ap.1) :: br.2)

/-- js `handleSessionJoin(ws, data)`. -/
def handleSessionJoin (st : ServerState) (now : Nat) (conn : Nat)
    (sessionId userId username : String) : ServerState × Sends :=
  match getSession st.sessions now sessionId with
  | (none, sessions2) =>
    ({ st with sessions := sessions2 },
      [(conn, .sessionError "Session not found or expired")])
  | (some _, sessions2) =>
    match JsMap.get userId st.userConnections with
    | some existingConnection =>
      if existingConnection ≠ conn then
        ({ st with sessions := sessions2 },
          [(conn, .sessionError "User already connected from another client")])
      else
        sessionJoinBody st sessions2 now conn sessionId userId username
    | none =>
      sessionJoinBody st sessions2 now conn sessionId userId username

/-- js `handleIngredientsAdd(ws, data)`; `ingredient` is the client-supplied
record (its `id`, if any, is never read). -/
def handleIngredientsAdd (st : ServerState) (now : Nat) (conn : Nat)
    (ingredient : Ingredient) : ServerState × Sends :=
  match JsMap.get conn st.clients with
  | none => (st, [])
  | some clientInfo =>
    match getSession st.sessions now clientInfo.sessionId with
    | (none, sessions2) => ({ st with sessions := sessions2 }, [])
    | (some session, sessions2) =>
      let ingredientName := jsToLower ingredient.name
      if session.ingredients.any (fun ing => jsToLower ing.name == ingredientName) then
        ({ st with sessions := sessions2 }, [])
      else
        let newIngredient : Ingredient :=
          { id := st.nextId, name := ingredientName,
            addedBy := ingredient.addedBy, addedAt := now }
        let session2 := { session with
          ingredients := session.ingredients ++ [newIngredient], lastActivity := now }
        let st2 := { st with
          sessions := JsMap.set clientInfo.sessionId session2 sessions2
          nextId := st.nextId + 1 }
        broadcastToSession st2 now clientInfo.sessionId
          (.ingredientsAdded newIngredient) none

/-- js `handleIngredientsRemove(ws, data)`. -/
def handleIngredientsRemove (st : ServerState) (now : Nat) (conn : Nat)
    (ingredientId : Nat) : ServerState × Sends :=
  match JsMap.get conn st.clients with
  | none => (st, [])
  | some clientInfo =>
    match getSession st.sessions now clientInfo.sessionId with
    | (none, sessions2) => ({ st with sessions := sessions2 }, [])
    | (some session, sessions2) =>
      match removeFirst (fun ing => ing.id == ingredientId) session.ingredients with
      | none => ({ st with sessions := sessions2 }, [])
      | some (removedIngredient, rest) =>
        let session2 := { session with ingredients := rest, lastActivity := now }
        let st2 := { st with sessions := JsMap.set clientInfo.sessionId session2 sessions2 }
        broadcastToSession st2 now clientInfo.sessionId
          (.ingredientsRemoved ingredientId removedIngredient) none

/-- The `fromIngredients` removal inside `handleIngredientsBlacklist`:
`findIndex` by lowercased name, `splice` when found. -/
def blacklistRemove (lowered : String) (ingredients : List Ingredient) :
    List Ingredient :=
  match removeFirst (fun ing => jsToLower ing.name == lowered) ingredients with
  | none => ingredients
  | some r => r.2

/-- js `handleIngredientsBlacklist(ws, data)`. -/
def handleIngredientsBlacklist (st : ServerState) (now : Nat) (conn : Nat)
    (ingredientName : String) (fromIngredients : Bool) : ServerState × Sends :=
  match JsMap.get conn st.clients with
  | none => (st, [])
  | some clientInfo =>
    match getSession st.sessions now clientInfo.sessionId with
    | (none, sessions2) => ({ st with sessions := sessions2 }, [])
    | (some session, sessions2) =>
      let lowered := jsToLower ingredientName
      let blacklist2 :=
        if session.blacklist.contains lowered then session.blacklist
        else session.blacklist ++ [lowered]
      let ingredients2 :=
        if fromIngredients then blacklistRemove lowered session.ingredients
        else session.ingredients
      let session2 := { session with
        blacklist := blacklist2, ingredients := ingredients2, lastActivity := now }
      let st2 := { st with sessions := JsMap.set clientInfo.sessionId session2 sessions2 }
      broadcastToSession st2 now clientInfo.sessionId
        (.ingredientsBlacklisted lowered blacklist2 ingredients2) none

/-- js `handleRecipesAdd(ws, data)`; the spread `{...recipe, id: uuidv4(), ...}`
keeps the client body but overwrites `id`, `createdAt`, `votes`, `voterIds`. -/
def handleRecipesAdd (st : ServerState) (now : Nat) (conn : Nat)
    (recipe : Recipe) : ServerState × Sends :=
  match JsMap.get conn st.clients with
  | none => (st, [])
  | some clientInfo =>
    match getSession st.sessions now clientInfo.sessionId with
    | (none, sessions2) => ({ st with sessions := sessions2 }, [])
    | (some session, sessions2) =>
      let newRecipe := { recipe with
        id := st.nextId, createdAt := now, votes := 0, voterIds := [] }
      let session2 := { session with
        recipes := session.recipes ++ [newRecipe], lastActivity := now }
      let st2 := { st with
        sessions := JsMap.set clientInfo.sessionId session2 sessions2
        nextId := st.nextId + 1 }
      broadcastToSession st2 now clientInfo.sessionId (.recipesAdded newRecipe) none

/-- One iteration of the recompute loop of `handleRecipesVote`: if the user
voted on this recipe, push them onto `voterIds` and bump the matching
counter. The accumulator is `(upvotes, downvotes, voterIds)`. -/
def tallyStep (recipeId : Nat) (acc : Nat × Nat × List String)
    (entry : String × List (Nat × Vote)) : Nat × Nat × List String :=
  match JsMap.get recipeId entry.2 with
  | none => acc
  | some v =>
    (acc.1 + (if v = .up then 1 else 0),
      acc.2.1 + (if v = .down then 1 else 0),
      acc.2.2 ++ [entry.1])

/-- The recompute loop of `handleRecipesVote`: fold over
`Object.entries(session.votes)` in insertion order. -/
def tallyVotes (recipeId : Nat) (votes : Votes) : Nat × Nat × List String :=
  votes.foldl (tallyStep recipeId) (0, 0, [])

/-- One recipe's recomputation: `recipe.votes = upvotes - downvotes`,
`recipe.voterIds = voterIds`. -/
def recomputeRecipe (votes : Votes) (r : Recipe) : Recipe :=
  let t := tallyVotes r.id votes
  { r with votes := (t.1 : Int) - (t.2.1 : Int), voterIds := t.2.2 }

/-- The new value of `votes[userId]` under one vote: delete the previous
vote for this recipe, then store the new one unless neutral. -/
def applyVote (voteType : VoteType) (recipeId : Nat)
    (userVotes : List (Nat × Vote)) : List (Nat × Vote) :=
  let userVotes2 := JsMap.erase recipeId userVotes
  match voteType.toVote with
  | none => userVotes2
  | some v => JsMap.set recipeId v userVotes2

/-- js `handleRecipesVote(ws, data)`. -/
def handleRecipesVote (st : ServerState) (now : Nat) (conn : Nat)
    (recipeId : Nat) (voteType : VoteType) : ServerState × Sends :=
  match JsMap.get conn st.clients with
  | none => (st, [])
  | some clientInfo =>
    match getSession st.sessions now clientInfo.sessionId with
    | (none, sessions2) => ({ st with sessions := sessions2 }, [])
    | (some session, sessions2) =>
      let userId := clientInfo.userId
      -- initialize the user's map if absent, then rewrite their vote
      let userVotes := (JsMap.get userId session.votes).getD []
      let votes2 := JsMap.set userId (applyVote voteType recipeId userVotes) session.votes
      let recipes2 := session.recipes.map (recomputeRecipe votes2)
      let session2 := { session with
        votes := votes2, recipes := recipes2, lastActivity := now }
      let st2 := { st with sessions := JsMap.set clientInfo.sessionId session2 sessions2 }
      broadcastToSession st2 now clientInfo.sessionId
        (.recipesVoted recipeId voteType userId recipes2) none

/-- js `handleRecipesRemove(ws, data)`. -/
def handleRecipesRemove (st : ServerState) (now : Nat) (conn : Nat)
    (recipeId : Nat) : ServerState × Sends :=
  match JsMap.get conn st.clients with
  | none => (st, [])
  | some clientInfo =>
    match getSession st.sessions now clientInfo.sessionId with
    | (none, sessions2) => ({ st with sessions := sessions2 }, [])
    | (some session, sessions2) =>
      match removeFirst (fun r => r.id == recipeId) session.recipes with
      | none => ({ st with sessions := sessions2 }, [])
      | some (removedRecipe, rest) =>
        let session2 := { session with recipes := rest, lastActivity := now }
        let st2 := { st with sessions := JsMap.set clientInfo.sessionId session2 sessions2 }
        broadcastToSession st2 now clientInfo.sessionId
          (.recipesRemoved recipeId removedRecipe) none

/-- js `handleContextUpdate(ws, data)`: host-only, silent drop otherwise,
broadcast excludes the host. -/
def handleContextUpdate (st : ServerState) (now : Nat) (conn : Nat)
    (context : String) : ServerState × Sends :=
  match JsMap.get conn st.clients with
  | none => (st, [])
  | some clientInfo =>
    match getSession st.sessions now clientInfo.sessionId with
    | (none, sessions2) => ({ st with sessions := sessions2 }, [])
    | (some session, sessions2) =>
      if clientInfo.userId ≠ session.hostId then
        ({ st with sessions := sessions2 }, [])
      else
        let session2 := { session with context := context, lastActivity := now }
        let st2 := { st with sessions := JsMap.set clientInfo.sessionId session2 sessions2 }
        broadcastToSession st2 now clientInfo.sessionId
          (.contextUpdated context) (some clientInfo.userId)

/-- js `handleHostTransfer(ws, data)`. -/
def handleHostTransfer (st : ServerState) (now : Nat) (conn : Nat)
    (newHostId : String) : ServerState × Sends :=
  match JsMap.get conn st.clients with
  | none => (st, [])
  | some clientInfo =>
    match getSession st.sessions now clientInfo.sessionId with
    | (none, sessions2) => ({ st with sessions := sessions2 }, [])
    | (some session, sessions2) =>
      if session.hostId ≠ clientInfo.userId then
        ({ st with sessions := sessions2 },
          [(conn, .errorMsg "Only host can transfer privileges")])
      else
        match session.participants.find? (fun p => p.id == newHostId) with
        | none =>
          ({ st with sessions := sessions2 },
            [(conn, .errorMsg "New host not found in session")])
        | some newHost =>
          let session2 := { session with
            hostId := newHostId, hostName := newHost.name, lastActivity := now }
          let st2 := { st with
            sessions := JsMap.set clientInfo.sessionId session2 sessions2 }
          broadcastToSession st2 now clientInfo.sessionId
            (.hostTransferred newHostId newHost.name session2) none

/-- js `handleHostPermissions(ws, data)`. -/
def handleHostPermissions (st : ServerState) (now : Nat) (conn : Nat)
    (allowRecipeGeneration : Bool) : ServerState × Sends :=
  match JsMap.get conn st.clients with
  | none => (st, [])
  | some clientInfo =>
    match getSession st.sessions now clientInfo.sessionId with
    | (none, sessions2) => ({ st with sessions := sessions2 }, [])
    | (some session, sessions2) =>
      if session.hostId ≠ clientInfo.userId then
        ({ st with sessions := sessions2 },
          [(conn, .errorMsg "Only host can change permissions")])
      else
        let session2 := { session with
          allowRecipeGeneration := allowRecipeGeneration, lastActivity := now }
        let st2 := { st with
          sessions := JsMap.set clientInfo.sessionId session2 sessions2 }
        broadcastToSession st2 now clientInfo.sessionId
          (.hostPermissionsUpdated allowRecipeGeneration session2) none

/-- js `handleSessionEnd(ws, data)`: broadcast, delete the session, then purge
every registry entry for that session and close those connections. -/
def handleSessionEnd (st : ServerState) (now : Nat) (conn : Nat) :
    ServerState × Sends :=
  match JsMap.get conn st.clients with
  | none => (st, [])
  | some clientInfo =>
    match getSession st.sessions now clientInfo.sessionId with
    | (none, sessions2) => ({ st with sessions := sessions2 }, [])
    | (some session, sessions2) =>
      if session.hostId ≠ clientInfo.userId then
        ({ st with sessions := sessions2 },
          [(conn, .errorMsg "Only host can end session")])
      else
        let br := broadcastToSession { st with sessions := sessions2 } now
          clientInfo.sessionId (.sessionEnded "Session has been ended by the host") none
        let st2 := br.1
        let sessionClients := st2.clients.filter
          (fun e => e.2.sessionId == clientInfo.sessionId)
        let st3 := { st2 with
          sessions := JsMap.erase clientInfo.sessionId st2.sessions
          clients := st2.clients.filter
            (fun e => !(e.2.sessionId == clientInfo.sessionId))
          userConnections := st2.userConnections.filter
            (fun e => !(sessionClients.any fun c => c.2.userId == e.1))
          openConns := st2.openConns.filter
            (fun c => !(sessionClients.any fun e => e.1 == c)) }
        (st3, br.2)

/-- js `handleDisconnection(ws)`: fires when a connection closes. -/
def handleDisconnection (st : ServerState) (now : Nat) (conn : Nat) :
    ServerState × Sends :=
  let st0 := { st with openConns := st.openConns.filter (fun c => !(c == conn)) }
  match JsMap.get conn st0.clients with
  | none => (st0, [])
  | some clientInfo =>
    let st1 := { st0 with
      clients := JsMap.erase conn st0.clients
      userConnections := JsMap.erase clientInfo.userId st0.userConnections }
    let rp := removeParticipant st1.sessions now clientInfo.sessionId clientInfo.userId
    let st2 := { st1 with sessions := rp.2 }
    broadcastToSession st2 now clientInfo.sessionId
      (.participantDisconnected clientInfo.userId clientInfo.username)
      (some clientInfo.userId)

/-- One iteration of the reaper loop: first `sessions.delete(sessionId)`,
only then `broadcastToSession` for the `session:expired` notification. -/
def reapSession (now : Nat) (acc : ServerState × Sends) (sessionId : String) :
    ServerState × Sends :=
  let st1 := { acc.1 with sessions := JsMap.erase sessionId acc.1.sessions }
  let br := broadcastToSession st1 now sessionId (.sessionExpired sessionId) none
  (br.1, acc.2 ++ br.2)

/-- js `cleanupExpiredSessions()`: collect the expired session ids, then reap
each in turn. -/
def cleanupExpiredSessions (st : ServerState) (now : Nat) : ServerState × Sends :=
  let expiredSessions := (st.sessions.filter
    (fun e => now - e.2.lastActivity > SESSION_TIMEOUT)).map Prod.fst
  expiredSessions.foldl (reapSession now) (st, [])

/-!
## The vote-recomputation characterization

`upVoters`, `downVoters` and `voterList` are the specification's reading of a
tally: the users voting `up`, voting `down`, and voting at all on a recipe,
in registration order. `tallyVotes` (the loop in the source) computes exactly
their counts and the voter list.
-/

/-- Users `u` with `votes[u][rid] = "up"`. -/
def upVoters (rid : Nat) (votes : Votes) : List String :=
  (votes.filter fun e => JsMap.get rid e.2 == some Vote.up).map Prod.fst

/-- Users `u` with `votes[u][rid] = "down"`. -/
def downVoters (rid : Nat) (votes : Votes) : List String :=
  (votes.filter fun e => JsMap.get rid e.2 == some Vote.down).map Prod.fst

/-- Users `u` with `votes[u][rid] ∈ {"up", "down"}` — every vote the table can
hold, so exactly the users with any entry for `rid`. -/
def voterList (rid : Nat) (votes : Votes) : List String :=
  (votes.filter fun e =>
    JsMap.get rid e.2 == some Vote.up || JsMap.get rid e.2 == some Vote.down).map Prod.fst

theorem tallyStep_none (rid : Nat) (acc : Nat × Nat × List String)
    (e : String × List (Nat × Vote)) (hv : JsMap.get rid e.2 = none) :
    tallyStep rid acc e = acc := by
  simp [tallyStep, hv]

theorem tallyStep_up (rid : Nat) (acc : Nat × Nat × List String)
    (e : String × List (Nat × Vote)) (hv : JsMap.get rid e.2 = some .up) :
    tallyStep rid acc e = (acc.1 + 1, acc.2.1, acc.2.2 ++ [e.1]) := by
  simp [tallyStep, hv]

theorem tallyStep_down (rid : Nat) (acc : Nat × Nat × List String)
    (e : String × List (Nat × Vote)) (hv : JsMap.get rid e.2 = some .down) :
    tallyStep rid acc e = (acc.1, acc.2.1 + 1, acc.2.2 ++ [e.1]) := by
  simp [tallyStep, hv]

theorem tallyVotes_go (rid : Nat) (votes : Votes) (a b : Nat) (l : List String) :
    votes.foldl (tallyStep rid) (a, b, l) =
      (a + (upVoters rid votes).length, b + (downVoters rid votes).length,
        l ++ voterList rid votes) := by
  induction votes generalizing a b l with
  | nil => simp [upVoters, downVoters, voterList]
  | cons e rest ih =>
    simp only [List.foldl_cons]
    cases hv : JsMap.get rid e.2 with
    | none =>
      rw [tallyStep_none rid _ e hv, ih a b l]
      simp [upVoters, downVoters, voterList, List.filter_cons, hv]
    | some v =>
      cases v with
      | up =>
        rw [tallyStep_up rid _ e hv]
        rw [ih (a + 1) b (l ++ [e.1])]
        simp only [upVoters, downVoters, voterList, List.filter_cons, hv]
        simp [Prod.ext_iff, List.append_assoc]
        omega
      | down =>
        rw [tallyStep_down rid _ e hv]
        rw [ih a (b + 1) (l ++ [e.1])]
        simp only [upVoters, downVoters, voterList, List.filter_cons, hv]
        simp [Prod.ext_iff, List.append_assoc]
        omega

theorem tallyVotes_eq (rid : Nat) (votes : Votes) :
    tallyVotes rid votes =
      ((upVoters rid votes).length, (downVoters rid votes).length,
        voterList rid votes) := by
  have h := tallyVotes_go rid votes 0 0 []
  simpa [tallyVotes] using h

theorem recomputeRecipe_eq (votes : Votes) (r : Recipe) :
    recomputeRecipe votes r =
      { r with
        votes := ((upVoters r.id votes).length : Int) - ((downVoters r.id votes).length : Int),
        voterIds := voterList r.id votes } := by
  simp [recomputeRecipe, tallyVotes_eq]

/-!
## The reachable-state invariant
-/

/-- The per-session invariant, relative to the uuid supply `n`: ingredient ids
and names are unique, names are stored lowercased, every id the session
mentions was generated before `n`, and every recipe's `votes`/`voterIds` agree
with the recomputation formula over `session.votes`. -/
structure SessionInv (n : Nat) (s : Session) : Prop where
  ingIds : (s.ingredients.map Ingredient.id).Nodup
  ingNames : (s.ingredients.map Ingredient.name).Nodup
  ingLow : ∀ i ∈ s.ingredients, jsToLower i.name = i.name
  ingBound : ∀ i ∈ s.ingredients, i.id < n
  voteBound : ∀ e ∈ s.votes, ∀ p ∈ e.2, p.1 < n
  tally : ∀ r ∈ s.recipes,
    r.votes = ((upVoters r.id s.votes).length : Int) - ((downVoters r.id s.votes).length : Int)
      ∧ r.voterIds = voterList r.id s.votes

/-- The invariant over a session map. -/
def SessionsInv (n : Nat) (sessions : List (String × Session)) : Prop :=
  ∀ e ∈ sessions, SessionInv n e.2

/-- The server-state invariant. -/
def Inv (st : ServerState) : Prop := SessionsInv st.nextId st.sessions

theorem SessionInv.widen {n m : Nat} {s : Session} (h : SessionInv n s) (hnm : n ≤ m) :
    SessionInv m s where
  ingIds := h.ingIds
  ingNames := h.ingNames
  ingLow := h.ingLow
  ingBound := fun i hi => lt_of_lt_of_le (h.ingBound i hi) hnm
  voteBound := fun e he p hp => lt_of_lt_of_le (h.voteBound e he p hp) hnm
  tally := h.tally

/-- A session differing only in fields the invariant ignores keeps it. -/
theorem SessionInv.congrFields {n : Nat} {s s2 : Session} (h : SessionInv n s)
    (hing : s2.ingredients = s.ingredients) (hrec : s2.recipes = s.recipes)
    (hv : s2.votes = s.votes) : SessionInv n s2 where
  ingIds := hing ▸ h.ingIds
  ingNames := hing ▸ h.ingNames
  ingLow := hing ▸ h.ingLow
  ingBound := hing ▸ h.ingBound
  voteBound := hv ▸ h.voteBound
  tally := by
    rw [hrec, hv]
    exact h.tally

theorem SessionsInv.widenAll {n m : Nat} {ss : List (String × Session)}
    (h : SessionsInv n ss) (hnm : n ≤ m) : SessionsInv m ss :=
  fun e he => (h e he).widen hnm

theorem SessionsInv.of_subset {n : Nat} {ss ss2 : List (String × Session)}
    (h : SessionsInv n ss) (hsub : ∀ e ∈ ss2, e ∈ ss) : SessionsInv n ss2 :=
  fun e he => h e (hsub e he)

theorem SessionsInv.set {n : Nat} {ss : List (String × Session)} {sid : String}
    {s2 : Session} (h : SessionsInv n ss) (hs2 : SessionInv n s2) :
    SessionsInv n (JsMap.set sid s2 ss) := by
  intro e he
  rcases JsMap.mem_set sid s2 ss e he with h2 | h2
  · rw [h2]
    exact hs2
  · exact h e h2

theorem getSession_subset (sessions : List (String × Session)) (now : Nat)
    (sid : String) : ∀ e ∈ (getSession sessions now sid).2, e ∈ sessions := by
  unfold getSession
  split
  · exact fun e he => he
  · split
    · exact fun e he => JsMap.mem_erase sid sessions e he
    · exact fun e he => he

theorem getSession_some {sessions : List (String × Session)} {now : Nat}
    {sid : String} {s : Session} {sessions2 : List (String × Session)}
    (h : getSession sessions now sid = (some s, sessions2)) :
    JsMap.get sid sessions = some s ∧ sessions2 = sessions
      ∧ ¬ now - s.lastActivity > SESSION_TIMEOUT := by
  unfold getSession at h
  split at h
  · simp at h
  · next s0 heq =>
    split at h
    · simp at h
    · next hx =>
      injection h with h1 h2
      injection h1 with h1
      subst h1
      subst h2
      exact ⟨heq, rfl, hx⟩

theorem getSession_live {sessions : List (String × Session)} {now : Nat}
    {sid : String} {s : Session} (hget : JsMap.get sid sessions = some s)
    (hlive : ¬ now - s.lastActivity > SESSION_TIMEOUT) :
    getSession sessions now sid = (some s, sessions) := by
  unfold getSession
  split
  · next heq =>
    rw [hget] at heq
    exact absurd heq (by simp)
  · next s0 heq =>
    rw [hget] at heq
    injection heq with h1
    subst h1
    rw [if_neg hlive]

theorem broadcastToSession_fst (st : ServerState) (now : Nat) (sid : String)
    (msg : Event) (ex : Option String) :
    (broadcastToSession st now sid msg ex).1 =
      { st with sessions := (getSession st.sessions now sid).2 } := by
  unfold broadcastToSession
  rcases h : getSession st.sessions now sid with ⟨opt, ss2⟩
  cases opt <;> simp [h]

theorem broadcastToSession_live (st : ServerState) (now : Nat) (sid : String)
    (msg : Event) (ex : Option String) (s : Session)
    (hget : JsMap.get sid st.sessions = some s)
    (hlive : ¬ now - s.lastActivity > SESSION_TIMEOUT) :
    broadcastToSession st now sid msg ex =
      (st, (st.clients.filter fun e =>
        e.2.sessionId == sid && !(ex == some e.2.userId)
          && st.openConns.contains e.1).map fun e => (e.1, msg)) := by
  unfold broadcastToSession
  rw [getSession_live hget hlive]

theorem inv_broadcastToSession {st : ServerState} (now : Nat) (sid : String)
    (msg : Event) (ex : Option String) (h : Inv st) :
    Inv (broadcastToSession st now sid msg ex).1 := by
  rw [broadcastToSession_fst]
  exact SessionsInv.of_subset h (getSession_subset st.sessions now sid)

theorem getSession_snd_subset {ss : List (String × Session)} {now : Nat}
    {sid : String} {opt : Option Session} {ss2 : List (String × Session)}
    (hg : getSession ss now sid = (opt, ss2)) : ∀ e ∈ ss2, e ∈ ss := by
  intro e he
  have h2 : e ∈ (getSession ss now sid).2 := by
    rw [hg]
    exact he
  exact getSession_subset ss now sid e h2

/-!
## List helper lemmas for `removeFirst` and `updateFirst`
-/

theorem removeFirst_eq_some {α : Type} {p : α → Bool} {l : List α} {x : α}
    {rest : List α} (h : removeFirst p l = some (x, rest)) :
    x ∈ l ∧ rest.Sublist l := by
  induction l generalizing rest with
  | nil => simp [removeFirst] at h
  | cons y ys ih =>
    simp only [removeFirst] at h
    by_cases hp : p y
    · rw [if_pos hp] at h
      injection h with h
      injection h with h1 h2
      subst h1
      subst h2
      exact ⟨List.mem_cons_self _ _, List.sublist_cons_self _ _⟩
    · rw [if_neg hp] at h
      cases hr : removeFirst p ys with
      | none =>
        rw [hr] at h
        simp at h
      | some r =>
        rw [hr] at h
        simp only [Option.map_some'] at h
        injection h with h
        injection h with h1 h2
        rcases r with ⟨x0, r0⟩
        subst h1
        obtain ⟨hm, hsub⟩ := ih hr
        constructor
        · exact List.mem_cons_of_mem _ hm
        · rw [← h2]
          exact hsub.cons₂ y

theorem removeFirst_eq_none {α : Type} {p : α → Bool} {l : List α}
    (h : removeFirst p l = none) : ∀ a ∈ l, ¬ p a := by
  induction l with
  | nil => simp
  | cons y ys ih =>
    simp only [removeFirst] at h
    by_cases hp : p y
    · rw [if_pos hp] at h
      simp at h
    · rw [if_neg hp] at h
      cases hr : removeFirst p ys with
      | none =>
        intro a ha
        rcases List.mem_cons.mp ha with ha | ha
        · rw [ha]
          simpa using hp
        · exact (ih hr) a ha
      | some r =>
        rw [hr] at h
        simp at h

/-- Removing by key from a list whose keys are distinct leaves no element
with that key. -/
theorem removeFirst_by_key {α β : Type} [DecidableEq β] {f : α → β} {c : β}
    {l : List α} {x : α} {rest : List α} (hnd : (l.map f).Nodup)
    (h : removeFirst (fun a => f a == c) l = some (x, rest)) :
    f x = c ∧ ∀ a ∈ rest, f a ≠ c := by
  induction l generalizing rest with
  | nil => simp [removeFirst] at h
  | cons y ys ih =>
    simp only [List.map_cons, List.nodup_cons] at hnd
    simp only [removeFirst] at h
    by_cases hp : f y == c
    · rw [if_pos hp] at h
      injection h with h
      injection h with h1 h2
      subst h1
      subst h2
      refine ⟨beq_iff_eq.mp hp, fun a ha hc => ?_⟩
      exact hnd.1 (beq_iff_eq.mp hp ▸ hc ▸ List.mem_map_of_mem f ha)
    · rw [if_neg hp] at h
      cases hr : removeFirst (fun a => f a == c) ys with
      | none =>
        rw [hr] at h
        simp at h
      | some r =>
        rw [hr] at h
        simp only [Option.map_some'] at h
        injection h with h
        injection h with h1 h2
        rcases r with ⟨x0, r0⟩
        subst h1
        obtain ⟨hc, hrest⟩ := ih hnd.2 hr
        refine ⟨hc, fun a ha => ?_⟩
        rw [← h2] at ha
        rcases List.mem_cons.mp ha with ha | ha
        · rw [ha]
          simpa using hp
        · exact hrest a ha

/-- `findIndex`+`splice` over `l ++ [x]` where nothing in `l` matches pulls
out exactly `x` and leaves `l`. -/
theorem removeFirst_append_last {α : Type} {p : α → Bool} {l : List α} {x : α}
    (hl : ∀ a ∈ l, ¬ p a) (hx : p x) : removeFirst p (l ++ [x]) = some (x, l) := by
  induction l with
  | nil => simp [removeFirst, hx]
  | cons y ys ih =>
    simp only [List.cons_append, removeFirst,
      if_neg (hl y (List.mem_cons_self y ys)), List.append_eq]
    rw [ih fun a ha => hl a (List.mem_cons_of_mem y ha)]
    rfl

theorem find?_updateFirst {α : Type} (p : α → Bool) (f : α → α) (l : List α)
    (hf : ∀ a, p a → p (f a)) :
    (updateFirst p f l).find? p = (l.find? p).map f := by
  induction l with
  | nil => simp [updateFirst]
  | cons y ys ih =>
    by_cases hp : p y
    · simp only [updateFirst, if_pos hp]
      rw [List.find?_cons_of_pos _ (hf y hp), List.find?_cons_of_pos _ hp]
      rfl
    · simp only [updateFirst, if_neg hp]
      rw [List.find?_cons_of_neg _ hp, List.find?_cons_of_neg _ hp]
      exact ih

theorem apSession_ingredients (s : Session) (now : Nat) (uid uname : String) :
    (apSession s now uid uname).ingredients = s.ingredients := by
  unfold apSession
  split <;> rfl

theorem apSession_recipes (s : Session) (now : Nat) (uid uname : String) :
    (apSession s now uid uname).recipes = s.recipes := by
  unfold apSession
  split <;> rfl

theorem apSession_votes (s : Session) (now : Nat) (uid uname : String) :
    (apSession s now uid uname).votes = s.votes := by
  unfold apSession
  split <;> rfl

theorem apSession_hostId (s : Session) (now : Nat) (uid uname : String) :
    (apSession s now uid uname).hostId = s.hostId := by
  unfold apSession
  split <;> rfl

theorem apSession_lastActivity (s : Session) (now : Nat) (uid uname : String) :
    (apSession s now uid uname).lastActivity = now := by
  unfold apSession
  split <;> rfl

/-!
## The transition system

One step of the server: a connection is accepted, a command arrives on some
connection (with arbitrary payload), a connection drops, or the reaper runs.
Commands carry ids chosen by clients; since ids in the real system are
uuids, a client can only name ids the server has previously issued, which
for the vote command is the side condition `recipeId < st.nextId`.
-/

inductive Step : ServerState → ServerState → Prop where
  | connect (st : ServerState) (conn : Nat) :
      Step st (acceptConnection st conn)
  | sessionCreate (st : ServerState) (now conn : Nat) (sid uid uname : String) :
      Step st (handleSessionCreate st now conn sid uid uname).1
  | sessionJoin (st : ServerState) (now conn : Nat) (sid uid uname : String) :
      Step st (handleSessionJoin st now conn sid uid uname).1
  | ingredientsAdd (st : ServerState) (now conn : Nat) (ing : Ingredient) :
      Step st (handleIngredientsAdd st now conn ing).1
  | ingredientsRemove (st : ServerState) (now conn iid : Nat) :
      Step st (handleIngredientsRemove st now conn iid).1
  | ingredientsBlacklist (st : ServerState) (now conn : Nat) (name : String)
      (fromIngredients : Bool) :
      Step st (handleIngredientsBlacklist st now conn name fromIngredients).1
  | recipesAdd (st : ServerState) (now conn : Nat) (r : Recipe) :
      Step st (handleRecipesAdd st now conn r).1
  | recipesVote (st : ServerState) (now conn rid : Nat) (vt : VoteType)
      (hfresh : rid < st.nextId) :
      Step st (handleRecipesVote st now conn rid vt).1
  | recipesRemove (st : ServerState) (now conn rid : Nat) :
      Step st (handleRecipesRemove st now conn rid).1
  | contextUpdate (st : ServerState) (now conn : Nat) (context : String) :
      Step st (handleContextUpdate st now conn context).1
  | hostTransfer (st : ServerState) (now conn : Nat) (newHostId : String) :
      Step st (handleHostTransfer st now conn newHostId).1
  | hostPermissions (st : ServerState) (now conn : Nat) (allow : Bool) :
      Step st (handleHostPermissions st now conn allow).1
  | sessionEnd (st : ServerState) (now conn : Nat) :
      Step st (handleSessionEnd st now conn).1
  | disconnect (st : ServerState) (now conn : Nat) :
      Step st (handleDisconnection st now conn).1
  | cleanup (st : ServerState) (now : Nat) :
      Step st (cleanupExpiredSessions st now).1

/-- A server state the program can actually be in. -/
def Reachable (st : ServerState) : Prop :=
  Relation.ReflTransGen Step ServerState.init st

/-!
## Invariant preservation
-/

theorem sessionInv_createSession (n : Nat) (sid uid uname : String) (now : Nat) :
    SessionInv n (createSession sid uid uname now) where
  ingIds := by simp [createSession]
  ingNames := by simp [createSession]
  ingLow := by simp [createSession]
  ingBound := by simp [createSession]
  voteBound := by simp [createSession]
  tally := by simp [createSession]

theorem sessionsInv_addParticipant {n : Nat} {ss : List (String × Session)}
    (h : SessionsInv n ss) (now : Nat) (sid uid uname : String) :
    SessionsInv n (addParticipant ss now sid uid uname).2 := by
  unfold addParticipant
  split
  · next sessions2 hg => exact SessionsInv.of_subset h (getSession_snd_subset hg)
  · next s sessions2 hg =>
    obtain ⟨hget, hss2, hlive⟩ := getSession_some hg
    show SessionsInv n (JsMap.set sid (apSession s now uid uname) sessions2)
    rw [hss2]
    apply SessionsInv.set h
    exact (h (sid, s) (JsMap.get_eq_some_mem _ _ _ hget)).congrFields
      (apSession_ingredients s now uid uname) (apSession_recipes s now uid uname)
      (apSession_votes s now uid uname)

theorem sessionsInv_removeParticipant {n : Nat} {ss : List (String × Session)}
    (h : SessionsInv n ss) (now : Nat) (sid uid : String) :
    SessionsInv n (removeParticipant ss now sid uid).2 := by
  unfold removeParticipant
  split
  · next sessions2 hg => exact SessionsInv.of_subset h (getSession_snd_subset hg)
  · next s sessions2 hg =>
    obtain ⟨hget, hss2, hlive⟩ := getSession_some hg
    show SessionsInv n (JsMap.set sid (rpSession s now uid) sessions2)
    rw [hss2]
    apply SessionsInv.set h
    exact (h (sid, s) (JsMap.get_eq_some_mem _ _ _ hget)).congrFields rfl rfl rfl

/-- A recipe id no user has voted on tallies to zero. -/
theorem voters_nil_of_none {rid : Nat} {votes : Votes}
    (h : ∀ e ∈ votes, JsMap.get rid e.2 = none) :
    upVoters rid votes = [] ∧ downVoters rid votes = [] ∧ voterList rid votes = [] := by
  refine ⟨?_, ?_, ?_⟩ <;>
    simp only [upVoters, downVoters, voterList, List.map_eq_nil_iff,
      List.filter_eq_nil_iff] <;>
    intro e he <;>
    simp [h e he]

/-- Every recipe produced by the recompute loop satisfies the tally formula
for the vote table it was computed against. -/
theorem tally_of_recompute (votes2 : Votes) (recipes : List Recipe) :
    ∀ r ∈ recipes.map (recomputeRecipe votes2),
      r.votes = ((upVoters r.id votes2).length : Int)
          - ((downVoters r.id votes2).length : Int)
        ∧ r.voterIds = voterList r.id votes2 := by
  intro r hr
  obtain ⟨r0, _, rfl⟩ := List.mem_map.mp hr
  rw [recomputeRecipe_eq]
  exact ⟨rfl, rfl⟩

theorem blacklistRemove_sublist (lowered : String) (ingredients : List Ingredient) :
    (blacklistRemove lowered ingredients).Sublist ingredients := by
  unfold blacklistRemove
  split
  · exact List.Sublist.refl _
  · next r hrf =>
    rcases r with ⟨x, rest⟩
    exact (removeFirst_eq_some hrf).2

theorem applyVote_bound {n : Nat} (vt : VoteType) (rid : Nat)
    (uv : List (Nat × Vote)) (hub : ∀ p ∈ uv, p.1 < n) (hr : rid < n) :
    ∀ p ∈ applyVote vt rid uv, p.1 < n := by
  unfold applyVote
  cases hv : vt.toVote with
  | none => exact fun p hp => hub p (JsMap.mem_erase _ _ _ hp)
  | some v =>
    intro p hp
    rcases JsMap.mem_set _ _ _ _ hp with h3 | h3
    · rw [h3]
      exact hr
    · exact hub p (JsMap.mem_erase _ _ _ h3)

/-- The vote just cast is what `applyVote` stores (or erases, for neutral). -/
theorem applyVote_get_self (vt : VoteType) (rid : Nat) (uv : List (Nat × Vote))
    (hvt : vt ≠ VoteType.neutral) :
    JsMap.get rid (applyVote vt rid uv) = vt.toVote := by
  cases vt with
  | up => exact JsMap.get_set_self _ _ _
  | down => exact JsMap.get_set_self _ _ _
  | neutral => exact absurd rfl hvt

/-- `applyVote` leaves every other recipe's entry in the user's map alone. -/
theorem applyVote_get_ne (vt : VoteType) (rid k : Nat) (uv : List (Nat × Vote))
    (hne : k ≠ rid) : JsMap.get k (applyVote vt rid uv) = JsMap.get k uv := by
  unfold applyVote
  cases hv : vt.toVote with
  | none => exact JsMap.get_erase_ne _ _ _ hne
  | some v =>
    rw [JsMap.get_set_ne _ _ _ _ hne]
    exact JsMap.get_erase_ne _ _ _ hne

theorem inv_handleSessionCreate (st : ServerState) (now conn : Nat)
    (sid uid uname : String) (h : Inv st) :
    Inv (handleSessionCreate st now conn sid uid uname).1 := by
  unfold handleSessionCreate
  split
  · next existingSession sessions2 hg =>
    obtain ⟨hget, hss2, hlive⟩ := getSession_some hg
    split
    · apply inv_broadcastToSession
      show SessionsInv st.nextId (addParticipant sessions2 now sid uid uname).2
      exact sessionsInv_addParticipant (hss2.symm ▸ h) now sid uid uname
    · exact SessionsInv.of_subset h (getSession_snd_subset hg)
  · next sessions2 hg =>
    intro e he
    rcases JsMap.mem_set _ _ _ e he with h2 | h2
    · rw [h2]
      exact sessionInv_createSession st.nextId sid uid uname now
    · exact h e (getSession_snd_subset hg e h2)

theorem inv_sessionJoinBody (st : ServerState) (sessions2 : List (String × Session))
    (now conn : Nat) (sid uid uname : String)
    (h2 : SessionsInv st.nextId sessions2) :
    Inv (sessionJoinBody st sessions2 now conn sid uid uname).1 := by
  unfold sessionJoinBody
  apply inv_broadcastToSession
  show SessionsInv st.nextId (addParticipant sessions2 now sid uid uname).2
  exact sessionsInv_addParticipant h2 now sid uid uname

theorem inv_handleSessionJoin (st : ServerState) (now conn : Nat)
    (sid uid uname : String) (h : Inv st) :
    Inv (handleSessionJoin st now conn sid uid uname).1 := by
  unfold handleSessionJoin
  split
  · next sessions2 hg => exact SessionsInv.of_subset h (getSession_snd_subset hg)
  · next s sessions2 hg =>
    have h2 : SessionsInv st.nextId sessions2 :=
      SessionsInv.of_subset h (getSession_snd_subset hg)
    split
    · next c =>
      split
      · exact h2
      · exact inv_sessionJoinBody st sessions2 now conn sid uid uname h2
    · exact inv_sessionJoinBody st sessions2 now conn sid uid uname h2

theorem inv_handleIngredientsAdd (st : ServerState) (now conn : Nat)
    (ing : Ingredient) (h : Inv st) :
    Inv (handleIngredientsAdd st now conn ing).1 := by
  unfold handleIngredientsAdd
  split
  · exact h
  · next clientInfo hc =>
    split
    · next sessions2 hg => exact SessionsInv.of_subset h (getSession_snd_subset hg)
    · next session sessions2 hg =>
      obtain ⟨hget, hss2, hlive⟩ := getSession_some hg
      have hsi := h (clientInfo.sessionId, session) (JsMap.get_eq_some_mem _ _ _ hget)
      dsimp only
      split
      · next hdup => exact SessionsInv.of_subset h (getSession_snd_subset hg)
      · next hdup =>
        have hnot : ∀ i ∈ session.ingredients, i.name ≠ jsToLower ing.name := by
          intro i hi heq
          apply hdup
          rw [List.any_eq_true]
          refine ⟨i, hi, ?_⟩
          rw [hsi.ingLow i hi, heq]
          exact beq_self_eq_true _
        apply inv_broadcastToSession
        intro e he
        rcases JsMap.mem_set _ _ _ e he with h2 | h2
        · rw [h2]
          refine ⟨?_, ?_, ?_, ?_, ?_, ?_⟩
          · rw [List.map_append]
            refine List.Nodup.append hsi.ingIds (List.nodup_singleton _) ?_
            intro a ha hb
            simp only [List.map_cons, List.map_nil, List.mem_singleton] at hb
            subst hb
            obtain ⟨i, hi, hid⟩ := List.mem_map.mp ha
            have hlt := hsi.ingBound i hi
            rw [hid] at hlt
            exact absurd hlt (lt_irrefl _)
          · rw [List.map_append]
            refine List.Nodup.append hsi.ingNames (List.nodup_singleton _) ?_
            intro a ha hb
            simp only [List.map_cons, List.map_nil, List.mem_singleton] at hb
            subst hb
            obtain ⟨i, hi, hname⟩ := List.mem_map.mp ha
            exact hnot i hi hname
          · intro i hi
            rcases List.mem_append.mp hi with h3 | h3
            · exact hsi.ingLow i h3
            · simp only [List.mem_singleton] at h3
              rw [h3]
              exact jsToLower_idem ing.name
          · intro i hi
            rcases List.mem_append.mp hi with h3 | h3
            · exact lt_of_lt_of_le (hsi.ingBound i h3) (Nat.le_succ _)
            · simp only [List.mem_singleton] at h3
              rw [h3]
              exact Nat.lt_succ_self _
          · exact fun e2 he2 p hp => lt_of_lt_of_le (hsi.voteBound e2 he2 p hp) (Nat.le_succ _)
          · exact hsi.tally
        · exact (h e (getSession_snd_subset hg e h2)).widen (Nat.le_succ _)

theorem inv_handleIngredientsRemove (st : ServerState) (now conn : Nat)
    (iid : Nat) (h : Inv st) :
    Inv (handleIngredientsRemove st now conn iid).1 := by
  unfold handleIngredientsRemove
  split
  · exact h
  · next clientInfo hc =>
    split
    · next sessions2 hg => exact SessionsInv.of_subset h (getSession_snd_subset hg)
    · next session sessions2 hg =>
      obtain ⟨hget, hss2, hlive⟩ := getSession_some hg
      have hsi := h (clientInfo.sessionId, session) (JsMap.get_eq_some_mem _ _ _ hget)
      split
      · exact SessionsInv.of_subset h (getSession_snd_subset hg)
      · next removed rest hrf =>
        obtain ⟨hmem, hsub⟩ := removeFirst_eq_some hrf
        apply inv_broadcastToSession
        intro e he
        rcases JsMap.mem_set _ _ _ e he with h2 | h2
        · rw [h2]
          exact ⟨(hsub.map _).nodup hsi.ingIds, (hsub.map _).nodup hsi.ingNames,
            fun i hi => hsi.ingLow i (hsub.mem hi),
            fun i hi => hsi.ingBound i (hsub.mem hi),
            hsi.voteBound, hsi.tally⟩
        · exact h e (getSession_snd_subset hg e h2)

theorem inv_handleIngredientsBlacklist (st : ServerState) (now conn : Nat)
    (name : String) (fromIngredients : Bool) (h : Inv st) :
    Inv (handleIngredientsBlacklist st now conn name fromIngredients).1 := by
  unfold handleIngredientsBlacklist
  split
  · exact h
  · next clientInfo hc =>
    split
    · next sessions2 hg => exact SessionsInv.of_subset h (getSession_snd_subset hg)
    · next session sessions2 hg =>
      obtain ⟨hget, hss2, hlive⟩ := getSession_some hg
      have hsi := h (clientInfo.sessionId, session) (JsMap.get_eq_some_mem _ _ _ hget)
      have hsub : (if fromIngredients then
          blacklistRemove (jsToLower name) session.ingredients
          else session.ingredients).Sublist session.ingredients := by
        split
        · exact blacklistRemove_sublist _ _
        · exact List.Sublist.refl _
      apply inv_broadcastToSession
      intro e he
      rcases JsMap.mem_set _ _ _ e he with h2 | h2
      · rw [h2]
        exact ⟨(hsub.map _).nodup hsi.ingIds, (hsub.map _).nodup hsi.ingNames,
          fun i hi => hsi.ingLow i (hsub.mem hi),
          fun i hi => hsi.ingBound i (hsub.mem hi),
          hsi.voteBound, hsi.tally⟩
      · exact h e (getSession_snd_subset hg e h2)

theorem inv_handleRecipesAdd (st : ServerState) (now conn : Nat)
    (r : Recipe) (h : Inv st) :
    Inv (handleRecipesAdd st now conn r).1 := by
  unfold handleRecipesAdd
  split
  · exact h
  · next clientInfo hc =>
    split
    · next sessions2 hg => exact SessionsInv.of_subset h (getSession_snd_subset hg)
    · next session sessions2 hg =>
      obtain ⟨hget, hss2, hlive⟩ := getSession_some hg
      have hsi := h (clientInfo.sessionId, session) (JsMap.get_eq_some_mem _ _ _ hget)
      apply inv_broadcastToSession
      intro e he
      rcases JsMap.mem_set _ _ _ e he with h2 | h2
      · rw [h2]
        have hnone : ∀ e2 ∈ session.votes, JsMap.get st.nextId e2.2 = none :=
          fun e2 he2 => JsMap.get_eq_none _ _
            (fun p hp => Nat.ne_of_lt (hsi.voteBound e2 he2 p hp))
        obtain ⟨hup, hdown, hvl⟩ := voters_nil_of_none hnone
        refine ⟨hsi.ingIds, hsi.ingNames, hsi.ingLow,
          fun i hi => lt_of_lt_of_le (hsi.ingBound i hi) (Nat.le_succ _),
          fun e2 he2 p hp => lt_of_lt_of_le (hsi.voteBound e2 he2 p hp) (Nat.le_succ _),
          ?_⟩
        intro r2 hr2
        rcases List.mem_append.mp hr2 with h3 | h3
        · exact hsi.tally r2 h3
        · simp only [List.mem_singleton] at h3
          subst h3
          constructor
          · show (0 : Int) = ((upVoters st.nextId session.votes).length : Int)
              - ((downVoters st.nextId session.votes).length : Int)
            rw [hup, hdown]
            simp
          · show ([] : List String) = voterList st.nextId session.votes
            rw [hvl]
      · exact (h e (getSession_snd_subset hg e h2)).widen (Nat.le_succ _)

theorem inv_handleRecipesVote (st : ServerState) (now conn rid : Nat)
    (vt : VoteType) (hfresh : rid < st.nextId) (h : Inv st) :
    Inv (handleRecipesVote st now conn rid vt).1 := by
  unfold handleRecipesVote
  split
  · exact h
  · next clientInfo hc =>
    split
    · next sessions2 hg => exact SessionsInv.of_subset h (getSession_snd_subset hg)
    · next session sessions2 hg =>
      obtain ⟨hget, hss2, hlive⟩ := getSession_some hg
      have hsi := h (clientInfo.sessionId, session) (JsMap.get_eq_some_mem _ _ _ hget)
      have hbase : ∀ p ∈ (JsMap.get clientInfo.userId session.votes).getD [],
          p.1 < st.nextId := by
        intro p hp
        cases hu : JsMap.get clientInfo.userId session.votes with
        | none =>
          rw [hu] at hp
          simp at hp
        | some uv =>
          rw [hu] at hp
          exact hsi.voteBound (clientInfo.userId, uv)
            (JsMap.get_eq_some_mem _ _ _ hu) p hp
      have huvbound : ∀ p ∈ applyVote vt rid
          ((JsMap.get clientInfo.userId session.votes).getD []), p.1 < st.nextId :=
        applyVote_bound vt rid _ hbase hfresh
      apply inv_broadcastToSession
      intro e he
      rcases JsMap.mem_set _ _ _ e he with h2 | h2
      · rw [h2]
        refine ⟨hsi.ingIds, hsi.ingNames, hsi.ingLow, hsi.ingBound, ?_, ?_⟩
        · intro e2 he2 p hp
          rcases JsMap.mem_set _ _ _ _ he2 with h3 | h3
          · rw [h3] at hp
            exact huvbound p hp
          · exact hsi.voteBound e2 h3 p hp
        · exact tally_of_recompute _ session.recipes
      · exact h e (getSession_snd_subset hg e h2)

theorem inv_handleRecipesRemove (st : ServerState) (now conn rid : Nat) (h : Inv st) :
    Inv (handleRecipesRemove st now conn rid).1 := by
  unfold handleRecipesRemove
  split
  · exact h
  · next clientInfo hc =>
    split
    · next sessions2 hg => exact SessionsInv.of_subset h (getSession_snd_subset hg)
    · next session sessions2 hg =>
      obtain ⟨hget, hss2, hlive⟩ := getSession_some hg
      have hsi := h (clientInfo.sessionId, session) (JsMap.get_eq_some_mem _ _ _ hget)
      split
      · exact SessionsInv.of_subset h (getSession_snd_subset hg)
      · next removed rest hrf =>
        obtain ⟨hmem, hsub⟩ := removeFirst_eq_some hrf
        apply inv_broadcastToSession
        intro e he
        rcases JsMap.mem_set _ _ _ e he with h2 | h2
        · rw [h2]
          exact ⟨hsi.ingIds, hsi.ingNames, hsi.ingLow, hsi.ingBound, hsi.voteBound,
            fun r2 hr2 => hsi.tally r2 (hsub.mem hr2)⟩
        · exact h e (getSession_snd_subset hg e h2)

theorem inv_handleContextUpdate (st : ServerState) (now conn : Nat)
    (context : String) (h : Inv st) :
    Inv (handleContextUpdate st now conn context).1 := by
  unfold handleContextUpdate
  split
  · exact h
  · next clientInfo hc =>
    split
    · next sessions2 hg => exact SessionsInv.of_subset h (getSession_snd_subset hg)
    · next session sessions2 hg =>
      obtain ⟨hget, hss2, hlive⟩ := getSession_some hg
      have hsi := h (clientInfo.sessionId, session) (JsMap.get_eq_some_mem _ _ _ hget)
      split
      · exact SessionsInv.of_subset h (getSession_snd_subset hg)
      · apply inv_broadcastToSession
        intro e he
        rcases JsMap.mem_set _ _ _ e he with h2 | h2
        · rw [h2]
          exact hsi.congrFields rfl rfl rfl
        · exact h e (getSession_snd_subset hg e h2)

theorem inv_handleHostTransfer (st : ServerState) (now conn : Nat)
    (newHostId : String) (h : Inv st) :
    Inv (handleHostTransfer st now conn newHostId).1 := by
  unfold handleHostTransfer
  split
  · exact h
  · next clientInfo hc =>
    split
    · next sessions2 hg => exact SessionsInv.of_subset h (getSession_snd_subset hg)
    · next session sessions2 hg =>
      obtain ⟨hget, hss2, hlive⟩ := getSession_some hg
      have hsi := h (clientInfo.sessionId, session) (JsMap.get_eq_some_mem _ _ _ hget)
      split
      · exact SessionsInv.of_subset h (getSession_snd_subset hg)
      · split
        · exact SessionsInv.of_subset h (getSession_snd_subset hg)
        · apply inv_broadcastToSession
          intro e he
          rcases JsMap.mem_set _ _ _ e he with h2 | h2
          · rw [h2]
            exact hsi.congrFields rfl rfl rfl
          · exact h e (getSession_snd_subset hg e h2)

theorem inv_handleHostPermissions (st : ServerState) (now conn : Nat)
    (allow : Bool) (h : Inv st) :
    Inv (handleHostPermissions st now conn allow).1 := by
  unfold handleHostPermissions
  split
  · exact h
  · next clientInfo hc =>
    split
    · next sessions2 hg => exact SessionsInv.of_subset h (getSession_snd_subset hg)
    · next session sessions2 hg =>
      obtain ⟨hget, hss2, hlive⟩ := getSession_some hg
      have hsi := h (clientInfo.sessionId, session) (JsMap.get_eq_some_mem _ _ _ hget)
      split
      · exact SessionsInv.of_subset h (getSession_snd_subset hg)
      · apply inv_broadcastToSession
        intro e he
        rcases JsMap.mem_set _ _ _ e he with h2 | h2
        · rw [h2]
          exact hsi.congrFields rfl rfl rfl
        · exact h e (getSession_snd_subset hg e h2)

theorem inv_handleSessionEnd (st : ServerState) (now conn : Nat) (h : Inv st) :
    Inv (handleSessionEnd st now conn).1 := by
  unfold handleSessionEnd
  split
  · exact h
  · next clientInfo hc =>
    split
    · next sessions2 hg => exact SessionsInv.of_subset h (getSession_snd_subset hg)
    · next session sessions2 hg =>
      obtain ⟨hget, hss2, hlive⟩ := getSession_some hg
      split
      · exact SessionsInv.of_subset h (getSession_snd_subset hg)
      · have hfst := broadcastToSession_fst { st with sessions := sessions2 } now
          clientInfo.sessionId (.sessionEnded "Session has been ended by the host") none
        intro e he
        dsimp only at he ⊢
        rw [hfst] at he ⊢
        have h2 := JsMap.mem_erase _ _ e he
        exact h e (getSession_snd_subset hg e (getSession_subset _ _ _ e h2))

theorem inv_handleDisconnection (st : ServerState) (now conn : Nat) (h : Inv st) :
    Inv (handleDisconnection st now conn).1 := by
  unfold handleDisconnection
  dsimp only
  split
  · exact h
  · next clientInfo hc =>
    apply inv_broadcastToSession
    show SessionsInv st.nextId
      (removeParticipant st.sessions now clientInfo.sessionId clientInfo.userId).2
    exact sessionsInv_removeParticipant h now _ _

theorem inv_reapSession (now : Nat) (acc : ServerState × Sends) (sid : String)
    (h : Inv acc.1) : Inv (reapSession now acc sid).1 := by
  unfold reapSession
  apply inv_broadcastToSession
  intro e he
  exact h e (JsMap.mem_erase _ _ e he)

theorem inv_cleanup_fold (now : Nat) (ids : List String) (acc : ServerState × Sends)
    (h : Inv acc.1) : Inv (ids.foldl (reapSession now) acc).1 := by
  induction ids generalizing acc with
  | nil => exact h
  | cons i rest ih =>
    rw [List.foldl_cons]
    exact ih _ (inv_reapSession now acc i h)

theorem inv_cleanupExpiredSessions (st : ServerState) (now : Nat) (h : Inv st) :
    Inv (cleanupExpiredSessions st now).1 := by
  unfold cleanupExpiredSessions
  exact inv_cleanup_fold now _ (st, []) h

theorem inv_step {st st2 : ServerState} (h : Inv st) (hs : Step st st2) : Inv st2 := by
  cases hs
  case connect conn => exact h
  case sessionCreate now conn sid uid uname =>
    exact inv_handleSessionCreate st now conn sid uid uname h
  case sessionJoin now conn sid uid uname =>
    exact inv_handleSessionJoin st now conn sid uid uname h
  case ingredientsAdd now conn ing => exact inv_handleIngredientsAdd st now conn ing h
  case ingredientsRemove now conn iid => exact inv_handleIngredientsRemove st now conn iid h
  case ingredientsBlacklist now conn name fromIngredients =>
    exact inv_handleIngredientsBlacklist st now conn name fromIngredients h
  case recipesAdd now conn r => exact inv_handleRecipesAdd st now conn r h
  case recipesVote now conn rid vt hfresh =>
    exact inv_handleRecipesVote st now conn rid vt hfresh h
  case recipesRemove now conn rid => exact inv_handleRecipesRemove st now conn rid h
  case contextUpdate now conn context => exact inv_handleContextUpdate st now conn context h
  case hostTransfer now conn newHostId => exact inv_handleHostTransfer st now conn newHostId h
  case hostPermissions now conn allow => exact inv_handleHostPermissions st now conn allow h
  case sessionEnd now conn => exact inv_handleSessionEnd st now conn h
  case disconnect now conn => exact inv_handleDisconnection st now conn h
  case cleanup now => exact inv_cleanupExpiredSessions st now h

theorem inv_init : Inv ServerState.init := by
  intro e he
  simp [ServerState.init] at he

/-- Every reachable server state satisfies the invariant. -/
theorem inv_of_reachable {st : ServerState} (h : Reachable st) : Inv st := by
  induction h with
  | refl => exact inv_init
  | tail _ h2 ih => exact inv_step ih h2

/-!
## Characterizations of the handlers on the live path
-/

theorem not_timeout_self (now : Nat) : ¬ now - now > SESSION_TIMEOUT := by
  rw [Nat.sub_self]
  decide

/-- Membership in a broadcast's send list. -/
theorem sends_mem {clients : List (Nat × ClientInfo)} {opens : List Nat}
    {sid : String} {msg : Event} {ex : Option String} {c : Nat} {ci : ClientInfo}
    (hmem : (c, ci) ∈ clients) (hsid : ci.sessionId = sid)
    (hex : (ex == some ci.userId) = false) (hopen : c ∈ opens) :
    (c, msg) ∈ (clients.filter fun e =>
      e.2.sessionId == sid && !(ex == some e.2.userId)
        && opens.contains e.1).map fun e => (e.1, msg) := by
  refine List.mem_map.mpr ⟨(c, ci), List.mem_filter.mpr ⟨hmem, ?_⟩, rfl⟩
  simp [hsid, hex, hopen]

theorem handleRecipesVote_live (st : ServerState) (now conn rid : Nat)
    (vt : VoteType) (info : ClientInfo) (s : Session)
    (hc : JsMap.get conn st.clients = some info)
    (hs : JsMap.get info.sessionId st.sessions = some s)
    (hlive : ¬ now - s.lastActivity > SESSION_TIMEOUT) :
    handleRecipesVote st now conn rid vt =
      ({ st with sessions := (JsMap.set info.sessionId
          { s with
            votes := (JsMap.set info.userId
              (applyVote vt rid ((JsMap.get info.userId s.votes).getD [])) s.votes)
            recipes := (s.recipes.map (recomputeRecipe (JsMap.set info.userId
              (applyVote vt rid ((JsMap.get info.userId s.votes).getD [])) s.votes)))
            lastActivity := now } st.sessions) },
        (st.clients.filter fun e =>
          e.2.sessionId == info.sessionId && !((none : Option String) == some e.2.userId)
            && st.openConns.contains e.1).map fun e =>
          (e.1, Event.recipesVoted rid vt info.userId
            (s.recipes.map (recomputeRecipe (JsMap.set info.userId
              (applyVote vt rid ((JsMap.get info.userId s.votes).getD [])) s.votes))))) := by
  unfold handleRecipesVote
  simp only [hc]
  rw [getSession_live hs hlive]
  dsimp only
  rw [broadcastToSession_live _ _ _ _ _ _ (JsMap.get_set_self _ _ _) (by
    show ¬ now - now > SESSION_TIMEOUT
    exact not_timeout_self now)]

theorem handleIngredientsAdd_dup (st : ServerState) (now conn : Nat)
    (ing : Ingredient) (info : ClientInfo) (s : Session)
    (hc : JsMap.get conn st.clients = some info)
    (hs : JsMap.get info.sessionId st.sessions = some s)
    (hlive : ¬ now - s.lastActivity > SESSION_TIMEOUT)
    (hdup : (s.ingredients.any fun i => jsToLower i.name == jsToLower ing.name) = true) :
    handleIngredientsAdd st now conn ing = (st, []) := by
  unfold handleIngredientsAdd
  simp only [hc]
  rw [getSession_live hs hlive]
  dsimp only
  rw [if_pos hdup]

theorem handleIngredientsAdd_fresh (st : ServerState) (now conn : Nat)
    (ing : Ingredient) (info : ClientInfo) (s : Session)
    (hc : JsMap.get conn st.clients = some info)
    (hs : JsMap.get info.sessionId st.sessions = some s)
    (hlive : ¬ now - s.lastActivity > SESSION_TIMEOUT)
    (hdup : (s.ingredients.any fun i => jsToLower i.name == jsToLower ing.name) = false) :
    handleIngredientsAdd st now conn ing =
      ({ st with
          sessions := (JsMap.set info.sessionId
            { s with
              ingredients := (s.ingredients ++
                [{ id := st.nextId, name := jsToLower ing.name,
                   addedBy := ing.addedBy, addedAt := now }])
              lastActivity := now } st.sessions)
          nextId := st.nextId + 1 },
        (st.clients.filter fun e =>
          e.2.sessionId == info.sessionId && !((none : Option String) == some e.2.userId)
            && st.openConns.contains e.1).map fun e =>
          (e.1, Event.ingredientsAdded
            { id := st.nextId, name := jsToLower ing.name,
              addedBy := ing.addedBy, addedAt := now })) := by
  unfold handleIngredientsAdd
  simp only [hc]
  rw [getSession_live hs hlive]
  dsimp only
  rw [if_neg (by simp [hdup])]
  rw [broadcastToSession_live _ _ _ _ _ _ (JsMap.get_set_self _ _ _) (by
    show ¬ now - now > SESSION_TIMEOUT
    exact not_timeout_self now)]

theorem handleIngredientsRemove_found (st : ServerState) (now conn iid : Nat)
    (info : ClientInfo) (s : Session) (x : Ingredient) (rest : List Ingredient)
    (hc : JsMap.get conn st.clients = some info)
    (hs : JsMap.get info.sessionId st.sessions = some s)
    (hlive : ¬ now - s.lastActivity > SESSION_TIMEOUT)
    (hrf : removeFirst (fun ing => ing.id == iid) s.ingredients = some (x, rest)) :
    handleIngredientsRemove st now conn iid =
      ({ st with sessions := (JsMap.set info.sessionId
          { s with ingredients := rest, lastActivity := now } st.sessions) },
        (st.clients.filter fun e =>
          e.2.sessionId == info.sessionId && !((none : Option String) == some e.2.userId)
            && st.openConns.contains e.1).map fun e =>
          (e.1, Event.ingredientsRemoved iid x)) := by
  unfold handleIngredientsRemove
  simp only [hc]
  rw [getSession_live hs hlive]
  dsimp only
  simp only [hrf]
  rw [broadcastToSession_live _ _ _ _ _ _ (JsMap.get_set_self _ _ _) (by
    show ¬ now - now > SESSION_TIMEOUT
    exact not_timeout_self now)]

theorem handleIngredientsBlacklist_live (st : ServerState) (now conn : Nat)
    (name : String) (fI : Bool) (info : ClientInfo) (s : Session)
    (hc : JsMap.get conn st.clients = some info)
    (hs : JsMap.get info.sessionId st.sessions = some s)
    (hlive : ¬ now - s.lastActivity > SESSION_TIMEOUT) :
    handleIngredientsBlacklist st now conn name fI =
      ({ st with sessions := (JsMap.set info.sessionId
          { s with
            blacklist := (if s.blacklist.contains (jsToLower name) then s.blacklist
              else s.blacklist ++ [jsToLower name])
            ingredients := (if fI then blacklistRemove (jsToLower name) s.ingredients
              else s.ingredients)
            lastActivity := now } st.sessions) },
        (st.clients.filter fun e =>
          e.2.sessionId == info.sessionId && !((none : Option String) == some e.2.userId)
            && st.openConns.contains e.1).map fun e =>
          (e.1, Event.ingredientsBlacklisted (jsToLower name)
            (if s.blacklist.contains (jsToLower name) then s.blacklist
              else s.blacklist ++ [jsToLower name])
            (if fI then blacklistRemove (jsToLower name) s.ingredients
              else s.ingredients))) := by
  unfold handleIngredientsBlacklist
  simp only [hc]
  rw [getSession_live hs hlive]
  dsimp only
  rw [broadcastToSession_live _ _ _ _ _ _ (JsMap.get_set_self _ _ _) (by
    show ¬ now - now > SESSION_TIMEOUT
    exact not_timeout_self now)]

theorem handleContextUpdate_nonhost (st : ServerState) (now conn : Nat)
    (context : String) (info : ClientInfo) (s : Session)
    (hc : JsMap.get conn st.clients = some info)
    (hs : JsMap.get info.sessionId st.sessions = some s)
    (hlive : ¬ now - s.lastActivity > SESSION_TIMEOUT)
    (hnh : info.userId ≠ s.hostId) :
    handleContextUpdate st now conn context = (st, []) := by
  unfold handleContextUpdate
  simp only [hc]
  rw [getSession_live hs hlive]
  dsimp only
  rw [if_pos hnh]

theorem handleContextUpdate_host (st : ServerState) (now conn : Nat)
    (context : String) (info : ClientInfo) (s : Session)
    (hc : JsMap.get conn st.clients = some info)
    (hs : JsMap.get info.sessionId st.sessions = some s)
    (hlive : ¬ now - s.lastActivity > SESSION_TIMEOUT)
    (hh : info.userId = s.hostId) :
    handleContextUpdate st now conn context =
      ({ st with sessions := (JsMap.set info.sessionId
          { s with context := context, lastActivity := now } st.sessions) },
        (st.clients.filter fun e =>
          e.2.sessionId == info.sessionId && !(some info.userId == some e.2.userId)
            && st.openConns.contains e.1).map fun e =>
          (e.1, Event.contextUpdated context)) := by
  unfold handleContextUpdate
  simp only [hc]
  rw [getSession_live hs hlive]
  dsimp only
  rw [if_neg (by simp [hh])]
  rw [broadcastToSession_live _ _ _ _ _ _ (JsMap.get_set_self _ _ _) (by
    show ¬ now - now > SESSION_TIMEOUT
    exact not_timeout_self now)]

theorem handleSessionJoin_conflict (st : ServerState) (now conn : Nat)
    (sid uid uname : String) (s : Session) (c0 : Nat)
    (hs : JsMap.get sid st.sessions = some s)
    (hlive : ¬ now - s.lastActivity > SESSION_TIMEOUT)
    (huc : JsMap.get uid st.userConnections = some c0) (hne : c0 ≠ conn) :
    handleSessionJoin st now conn sid uid uname =
      (st, [(conn, .sessionError "User already connected from another client")]) := by
  unfold handleSessionJoin
  rw [getSession_live hs hlive]
  dsimp only
  simp only [huc]
  rw [if_pos hne]

theorem handleSessionCreate_new (st : ServerState) (now conn : Nat)
    (sid uid uname : String)
    (hnone : JsMap.get sid st.sessions = none) :
    handleSessionCreate st now conn sid uid uname =
      ({ st with
          sessions := (JsMap.set sid (createSession sid uid uname now) st.sessions)
          clients := (JsMap.set conn ⟨uid, sid, uname⟩ st.clients)
          userConnections := (JsMap.set uid conn st.userConnections) },
        [(conn, .sessionCreated (createSession sid uid uname now))]) := by
  unfold handleSessionCreate
  have hgs : getSession st.sessions now sid = (none, st.sessions) := by
    unfold getSession
    rw [hnone]
  rw [hgs]

theorem handleSessionCreate_rejoin (st : ServerState) (now conn : Nat)
    (sid uid uname : String) (s : Session)
    (hs : JsMap.get sid st.sessions = some s)
    (hlive : ¬ now - s.lastActivity > SESSION_TIMEOUT)
    (hhost : s.hostId = uid) :
    handleSessionCreate st now conn sid uid uname =
      ({ st with
          sessions := (JsMap.set sid (apSession s now uid uname) st.sessions)
          clients := (JsMap.set conn ⟨uid, sid, uname⟩ st.clients)
          userConnections := (JsMap.set uid conn st.userConnections) },
        (conn, Event.sessionCreated (apSession s now uid uname)) ::
          ((JsMap.set conn ⟨uid, sid, uname⟩ st.clients).filter fun e =>
            e.2.sessionId == sid && !((some uid : Option String) == some e.2.userId)
              && st.openConns.contains e.1).map fun e =>
            (e.1, Event.participantJoined uid uname none (some now))) := by
  unfold handleSessionCreate
  rw [getSession_live hs hlive]
  dsimp only
  rw [if_pos hhost]
  unfold addParticipant
  rw [getSession_live hs hlive]
  dsimp only
  rw [broadcastToSession_live _ _ _ _ _ _ (JsMap.get_set_self _ _ _) (by
    show ¬ now - (apSession s now uid uname).lastActivity > SESSION_TIMEOUT
    rw [apSession_lastActivity]
    exact not_timeout_self now)]
  rfl

namespace JsMap

variable {α : Type} {β : Type} [DecidableEq α]

theorem erase_of_get_none (k : α) (m : List (α × β)) (h : get k m = none) :
    erase k m = m := by
  induction m with
  | nil => rfl
  | cons e rest ih =>
    simp only [get] at h
    by_cases he : e.1 = k
    · simp [he] at h
    · rw [if_neg he] at h
      rw [erase, if_neg he, ih h]

theorem set_of_get_none (k : α) (v : β) (m : List (α × β)) (h : get k m = none) :
    set k v m = m ++ [(k, v)] := by
  induction m with
  | nil => rfl
  | cons e rest ih =>
    simp only [get] at h
    by_cases he : e.1 = k
    · simp [he] at h
    · rw [if_neg he] at h
      rw [set, if_neg he, ih h, List.cons_append]

theorem erase_append_self (k : α) (v : β) (m : List (α × β)) (h : get k m = none) :
    erase k (m ++ [(k, v)]) = m := by
  induction m with
  | nil => simp [erase]
  | cons e rest ih =>
    simp only [get] at h
    by_cases he : e.1 = k
    · simp [he] at h
    · rw [if_neg he] at h
      rw [List.cons_append, erase, if_neg he, ih h]

theorem set_set (k : α) (v1 v2 : β) (m : List (α × β)) :
    set k v2 (set k v1 m) = set k v2 m := by
  induction m with
  | nil => simp [set]
  | cons e rest ih =>
    by_cases he : e.1 = k
    · simp [set, he]
    · simp [set, he, ih]

end JsMap

/-- Replacing (or creating) one user's vote map does not change any filtered
voter projection at a recipe key on which that user's entry is unchanged. -/
theorem filter_fst_set_congr (uid : String) (uv3 : List (Nat × Vote)) (votes : Votes)
    (p : Option Vote → Bool) (k : Nat) (hp : p none = false)
    (huv : JsMap.get k uv3 = JsMap.get k ((JsMap.get uid votes).getD [])) :
    ((JsMap.set uid uv3 votes).filter fun e => p (JsMap.get k e.2)).map Prod.fst
      = (votes.filter fun e => p (JsMap.get k e.2)).map Prod.fst := by
  induction votes with
  | nil =>
    have huv2 : JsMap.get k uv3 = none := huv
    simp [JsMap.set, huv2, hp]
  | cons e rest ih =>
    by_cases he : e.1 = uid
    · have hg : JsMap.get uid (e :: rest) = some e.2 := by
        simp [JsMap.get, he]
      rw [hg] at huv
      simp only [JsMap.set, if_pos he, List.filter_cons]
      have huv2 : JsMap.get k uv3 = JsMap.get k e.2 := huv
      rw [huv2]
      by_cases hcond : p (JsMap.get k e.2) = true
      · simp [hcond, he]
      · rw [Bool.not_eq_true] at hcond
        simp [hcond]
    · have hg : JsMap.get uid (e :: rest) = JsMap.get uid rest := by
        simp [JsMap.get, he]
      rw [hg] at huv
      simp only [JsMap.set, if_neg he, List.filter_cons]
      by_cases hcond : p (JsMap.get k e.2) = true
      · simp [hcond, ih huv]
      · rw [Bool.not_eq_true] at hcond
        simp [hcond, ih huv]

theorem recomputeRecipe_votes_congr (v1 v2 : Votes) (r : Recipe)
    (hup : upVoters r.id v1 = upVoters r.id v2)
    (hdown : downVoters r.id v1 = downVoters r.id v2)
    (hvl : voterList r.id v1 = voterList r.id v2) :
    recomputeRecipe v1 r = recomputeRecipe v2 r := by
  rw [recomputeRecipe_eq, recomputeRecipe_eq, hup, hdown, hvl]

/-- A recipe whose stored tallies already match the vote table is a fixed
point of the recompute loop. -/
theorem recomputeRecipe_id_of_tally (votes : Votes) (r : Recipe)
    (h1 : r.votes = ((upVoters r.id votes).length : Int)
      - ((downVoters r.id votes).length : Int))
    (h2 : r.voterIds = voterList r.id votes) :
    recomputeRecipe votes r = r := by
  rw [recomputeRecipe_eq, ← h1, ← h2]

/-- Recomputing twice keeps only the last table (the loop overwrites the
whole tally). -/
theorem recomputeRecipe_comp (v1 v2 : Votes) (r : Recipe) :
    recomputeRecipe v2 (recomputeRecipe v1 r) = recomputeRecipe v2 r := rfl

/-- After the `fromIngredients` removal, no remaining ingredient bears the
blacklisted lowercased name (given distinct lowercased names). -/
theorem blacklistRemove_no_match (lowered : String) (ings : List Ingredient)
    (hnd : (ings.map fun i => jsToLower i.name).Nodup) :
    ∀ i ∈ blacklistRemove lowered ings, jsToLower i.name ≠ lowered := by
  unfold blacklistRemove
  split
  · next hrf =>
    intro i hi
    have h2 := removeFirst_eq_none hrf i hi
    simpa using h2
  · next r hrf =>
    rcases r with ⟨x, rest⟩
    exact fun i hi => (removeFirst_by_key hnd hrf).2 i hi

theorem upVoters_set_congr (uid : String) (uv3 : List (Nat × Vote)) (votes : Votes)
    (k : Nat) (huv : JsMap.get k uv3 = JsMap.get k ((JsMap.get uid votes).getD [])) :
    upVoters k (JsMap.set uid uv3 votes) = upVoters k votes :=
  filter_fst_set_congr uid uv3 votes (fun o => o == some Vote.up) k rfl huv

theorem downVoters_set_congr (uid : String) (uv3 : List (Nat × Vote)) (votes : Votes)
    (k : Nat) (huv : JsMap.get k uv3 = JsMap.get k ((JsMap.get uid votes).getD [])) :
    downVoters k (JsMap.set uid uv3 votes) = downVoters k votes :=
  filter_fst_set_congr uid uv3 votes (fun o => o == some Vote.down) k rfl huv

theorem voterList_set_congr (uid : String) (uv3 : List (Nat × Vote)) (votes : Votes)
    (k : Nat) (huv : JsMap.get k uv3 = JsMap.get k ((JsMap.get uid votes).getD [])) :
    voterList k (JsMap.set uid uv3 votes) = voterList k votes :=
  filter_fst_set_congr uid uv3 votes
    (fun o => o == some Vote.up || o == some Vote.down) k rfl huv

/-- Updating one user's vote map leaves every recipe with a different id a
fixed point of the recompute loop, provided its stored tallies matched. -/
theorem recompute_set_id (uid : String) (uv3 : List (Nat × Vote)) (votes : Votes)
    (r : Recipe)
    (huv : JsMap.get r.id uv3 = JsMap.get r.id ((JsMap.get uid votes).getD []))
    (h1 : r.votes = ((upVoters r.id votes).length : Int)
      - ((downVoters r.id votes).length : Int))
    (h2 : r.voterIds = voterList r.id votes) :
    recomputeRecipe (JsMap.set uid uv3 votes) r = r :=
  (recomputeRecipe_votes_congr _ votes r
    (upVoters_set_congr uid uv3 votes r.id huv)
    (downVoters_set_congr uid uv3 votes r.id huv)
    (voterList_set_congr uid uv3 votes r.id huv)).trans
    (recomputeRecipe_id_of_tally votes r h1 h2)

/-- One reaper iteration on a map with distinct keys: the session is deleted,
and the subsequent broadcast looks the session up, finds nothing, and sends
nothing at all. -/
theorem reapSession_nodup (now : Nat) (acc : ServerState × Sends) (sid : String)
    (hnd : (acc.1.sessions.map Prod.fst).Nodup) :
    reapSession now acc sid =
      ({ acc.1 with sessions := JsMap.erase sid acc.1.sessions }, acc.2) := by
  unfold reapSession
  dsimp only
  have hget : JsMap.get sid (JsMap.erase sid acc.1.sessions) = none :=
    JsMap.get_erase_self sid acc.1.sessions hnd
  have hgs : getSession (JsMap.erase sid acc.1.sessions) now sid =
      (none, JsMap.erase sid acc.1.sessions) := by
    unfold getSession
    rw [hget]
  unfold broadcastToSession
  rw [hgs]
  simp

theorem cleanup_fold_spec (now : Nat) (ids : List String) (st0 : ServerState)
    (acc : Sends) (hnd : (st0.sessions.map Prod.fst).Nodup) :
    (ids.foldl (reapSession now) (st0, acc)).2 = acc
    ∧ ∀ sid, (sid ∈ ids ∨ JsMap.get sid st0.sessions = none) →
        JsMap.get sid (ids.foldl (reapSession now) (st0, acc)).1.sessions = none := by
  induction ids generalizing st0 acc with
  | nil =>
    refine ⟨rfl, ?_⟩
    intro sid h
    rcases h with h | h
    · simp at h
    · exact h
  | cons i rest ih =>
    rw [List.foldl_cons, reapSession_nodup now (st0, acc) i hnd]
    have hnd2 : ((JsMap.erase i st0.sessions).map Prod.fst).Nodup :=
      JsMap.keys_nodup_erase i st0.sessions hnd
    obtain ⟨ih1, ih2⟩ := ih { st0 with sessions := JsMap.erase i st0.sessions } acc hnd2
    refine ⟨ih1, ?_⟩
    intro sid h
    apply ih2
    rcases h with h | h
    · rcases List.mem_cons.mp h with h2 | h2
      · subst h2
        right
        exact JsMap.get_erase_self sid st0.sessions hnd
      · left
        exact h2
    · right
      exact JsMap.get_erase_of_get_none sid i st0.sessions h

/-!
## Concrete runs of the server, used as witnesses and counterexamples

A connection `1` is accepted and creates session `"S"` as host `"U1"`; the
later states extend this run with further commands.
-/

def w1 : ServerState := acceptConnection ServerState.init 1

def w2 : ServerState := (handleSessionCreate w1 0 1 "S" "U1" "Alice").1

/-- The session stored in `w2`. -/
def wS : Session := createSession "S" "U1" "Alice" 0

/-- A client-supplied recipe body, with junk `id`, `votes` and `voterIds`
that the server must overwrite. -/
def wRecipe : Recipe :=
  { id := 42, title := "Pie", createdAt := 9, votes := 5, voterIds := ["zz"] }

def w3 : ServerState := (handleRecipesAdd w2 0 1 wRecipe).1

def w3s : Session := (JsMap.get "S" w3.sessions).getD (createSession "" "" "" 0)

def w4 : ServerState := (handleRecipesVote w3 0 1 0 VoteType.up).1

def w4s : Session := (JsMap.get "S" w4.sessions).getD (createSession "" "" "" 0)

def w4r : Recipe := w4s.recipes.getD 0 wRecipe

theorem reachable_w2 : Reachable w2 :=
  Relation.ReflTransGen.tail
    (Relation.ReflTransGen.tail Relation.ReflTransGen.refl
      (Step.connect ServerState.init 1))
    (Step.sessionCreate w1 0 1 "S" "U1" "Alice")

theorem reachable_w3 : Reachable w3 :=
  Relation.ReflTransGen.tail reachable_w2 (Step.recipesAdd w2 0 1 wRecipe)

theorem reachable_w4 : Reachable w4 :=
  Relation.ReflTransGen.tail reachable_w3
    (Step.recipesVote w3 0 1 0 VoteType.up (by decide))

/-- `w2` plus the ingredient `"salt"`. -/
def c2a : ServerState :=
  (handleIngredientsAdd w2 0 1 { id := 99, name := "Salt", addedBy := "U1", addedAt := 0 }).1

/-- `c2a` after `ingredients:blacklist {"SALT", fromIngredients: false}`. -/
def c2b : ServerState := (handleIngredientsBlacklist c2a 0 1 "SALT" false).1

def c2s : Session := (JsMap.get "S" c2b.sessions).getD (createSession "" "" "" 0)

def c2as : Session := (JsMap.get "S" c2a.sessions).getD (createSession "" "" "" 0)

theorem reachable_c2a : Reachable c2a :=
  Relation.ReflTransGen.tail reachable_w2
    (Step.ingredientsAdd w2 0 1 { id := 99, name := "Salt", addedBy := "U1", addedAt := 0 })

theorem reachable_c2b : Reachable c2b :=
  Relation.ReflTransGen.tail reachable_c2a
    (Step.ingredientsBlacklist c2a 0 1 "SALT" false)

/-- `w2` with a second open connection `2`, not yet registered. -/
def c4pre : ServerState := acceptConnection w2 2

theorem reachable_c4pre : Reachable c4pre :=
  Relation.ReflTransGen.tail reachable_w2 (Step.connect w2 2)

/-- Host rejoin of `"S"` from the new connection `2` while connection `1`
is still open and registered. -/
def c5st : ServerState := (handleSessionCreate c4pre 0 2 "S" "U1" "Alice").1

theorem reachable_c5st : Reachable c5st :=
  Relation.ReflTransGen.tail reachable_c4pre
    (Step.sessionCreate c4pre 0 2 "S" "U1" "Alice")

/-- `w3` after `"U1"` votes the recipe down: the pre-state of the
up-then-neutral round trip of C8. -/
def c8b : ServerState := (handleRecipesVote w3 0 1 0 VoteType.down).1

/-- `c8b` after voting `up` and then `neutral` on the same recipe. -/
def c8c : ServerState :=
  (handleRecipesVote (handleRecipesVote c8b 0 1 0 VoteType.up).1 0 1 0 VoteType.neutral).1

def c8bs : Session := (JsMap.get "S" c8b.sessions).getD (createSession "" "" "" 0)

def c8cs : Session := (JsMap.get "S" c8c.sessions).getD (createSession "" "" "" 0)

theorem reachable_c8b : Reachable c8b :=
  Relation.ReflTransGen.tail reachable_w3
    (Step.recipesVote w3 0 1 0 VoteType.down (by decide))

theorem reachable_c8c : Reachable c8c :=
  Relation.ReflTransGen.tail
    (Relation.ReflTransGen.tail reachable_c8b
      (Step.recipesVote c8b 0 1 0 VoteType.up (by decide)))
    (Step.recipesVote (handleRecipesVote c8b 0 1 0 VoteType.up).1 0 1 0
      VoteType.neutral (by decide))

/-!
## The claims
-/

/-- C1: the claim says a reaper sweep removes every session whose
`lastActivity` is older than TTL and publishes `session:expired` to the
remaining live connections bound to it. The code removes the session first
and only then calls `broadcastToSession`, which re-resolves the session,
finds it gone, and returns: the sweep therefore performs no send at all
(first conjunct), even though the sessions are indeed removed (second
conjunct). The `Nodup` hypothesis (distinct map keys) holds of every
`Map`-backed store. -/
theorem claim1_reaper_never_notifies (st : ServerState) (now : Nat)
    (hnd : (st.sessions.map Prod.fst).Nodup) :
    (cleanupExpiredSessions st now).2 = []
    ∧ ∀ sid s, (sid, s) ∈ st.sessions → now - s.lastActivity > SESSION_TIMEOUT →
        JsMap.get sid (cleanupExpiredSessions st now).1.sessions = none := by
  unfold cleanupExpiredSessions
  dsimp only
  obtain ⟨h1, h2⟩ := cleanup_fold_spec now _ st [] hnd
  refine ⟨h1, ?_⟩
  intro sid s hmem hexp
  apply h2
  left
  exact List.mem_map.mpr ⟨(sid, s), List.mem_filter.mpr ⟨hmem, by simp [hexp]⟩, rfl⟩

/-- Witness for C1: in the concrete run `w2` the session `"S"` is expired at
`now = SESSION_TIMEOUT + 1`, and a live connection `1` is still bound to it
and open — yet the sweep removes the session and sends nothing. -/
theorem claim1_witness :
    ((1, (⟨"U1", "S", "Alice"⟩ : ClientInfo)) ∈ w2.clients
      ∧ 1 ∈ w2.openConns
      ∧ ("S", wS) ∈ w2.sessions
      ∧ (SESSION_TIMEOUT + 1) - wS.lastActivity > SESSION_TIMEOUT)
    ∧ (cleanupExpiredSessions w2 (SESSION_TIMEOUT + 1)).2 = []
    ∧ JsMap.get "S" (cleanupExpiredSessions w2 (SESSION_TIMEOUT + 1)).1.sessions = none :=
  ⟨⟨by decide, by decide, by decide, by decide⟩,
    (claim1_reaper_never_notifies w2 (SESSION_TIMEOUT + 1) (by decide)).1,
    (claim1_reaper_never_notifies w2 (SESSION_TIMEOUT + 1) (by decide)).2 "S" wS
      (by decide) (by decide)⟩

/-- C3: in every reachable session state, every recipe's `votes` equals the
number of users voting `"up"` on it minus the number voting `"down"`, and
its `voterIds` is exactly the list of users holding an `"up"` or `"down"`
vote on it — in particular after every `recipes:vote` and `recipes:add`
command, which are steps of `Reachable`. -/
theorem claim3_tally_invariant (st : ServerState) (hreach : Reachable st)
    (sid : String) (s : Session) (hmem : (sid, s) ∈ st.sessions)
    (r : Recipe) (hr : r ∈ s.recipes) :
    r.votes = ((upVoters r.id s.votes).length : Int)
        - ((downVoters r.id s.votes).length : Int)
      ∧ r.voterIds = voterList r.id s.votes :=
  (inv_of_reachable hreach (sid, s) hmem).tally r hr

/-- Witness for C3: the concrete reachable state `w4` (create session, add a
recipe, vote it up) satisfies the tally formula. -/
theorem claim3_witness :
    w4r.votes = ((upVoters w4r.id w4s.votes).length : Int)
        - ((downVoters w4r.id w4s.votes).length : Int)
      ∧ w4r.voterIds = voterList w4r.id w4s.votes :=
  claim3_tally_invariant w4 reachable_w4 "S" w4s (by decide) w4r (by decide)

/-- C6: in every reachable state ingredient ids are unique and lowercased
names are unique within each session; an `ingredients:add` whose lowercased
name is already present returns the state unchanged and emits nothing; a
fresh add appends exactly one record carrying the server-assigned id
`st.nextId` (distinct from every existing id) and bumps the uuid supply;
and the handler is insensitive to any client-supplied `id`. -/
theorem claim6_ingredient_uniqueness (st : ServerState) (now conn : Nat)
    (ing : Ingredient) (info : ClientInfo) (s : Session)
    (hreach : Reachable st)
    (hc : JsMap.get conn st.clients = some info)
    (hs : JsMap.get info.sessionId st.sessions = some s)
    (hlive : ¬ now - s.lastActivity > SESSION_TIMEOUT) :
    (∀ sid s2, (sid, s2) ∈ st.sessions →
      (s2.ingredients.map Ingredient.id).Nodup
        ∧ (s2.ingredients.map fun i => jsToLower i.name).Nodup)
    ∧ ((∃ i ∈ s.ingredients, jsToLower i.name = jsToLower ing.name) →
        handleIngredientsAdd st now conn ing = (st, []))
    ∧ ((∀ i ∈ s.ingredients, jsToLower i.name ≠ jsToLower ing.name) →
        (∀ i ∈ s.ingredients, i.id ≠ st.nextId)
        ∧ ∃ s2, JsMap.get info.sessionId
              (handleIngredientsAdd st now conn ing).1.sessions = some s2
            ∧ s2.ingredients = s.ingredients ++
                [{ id := st.nextId, name := jsToLower ing.name,
                   addedBy := ing.addedBy, addedAt := now }]
            ∧ (handleIngredientsAdd st now conn ing).1.nextId = st.nextId + 1)
    ∧ (∀ j, handleIngredientsAdd st now conn { ing with id := j }
        = handleIngredientsAdd st now conn ing) := by
  have hinv := inv_of_reachable hreach
  have hsi := hinv (info.sessionId, s) (JsMap.get_eq_some_mem _ _ _ hs)
  refine ⟨?_, ?_, ?_, fun j => rfl⟩
  · intro sid s2 hmem
    have h2 := hinv (sid, s2) hmem
    refine ⟨h2.ingIds, ?_⟩
    have h3 : (s2.ingredients.map fun i => jsToLower i.name)
        = s2.ingredients.map Ingredient.name :=
      List.map_congr_left fun i hi => h2.ingLow i hi
    rw [h3]
    exact h2.ingNames
  · rintro ⟨i, hi, heq⟩
    apply handleIngredientsAdd_dup st now conn ing info s hc hs hlive
    rw [List.any_eq_true]
    refine ⟨i, hi, ?_⟩
    rw [heq]
    exact beq_self_eq_true _
  · intro hfreshname
    have hdup : (s.ingredients.any fun i => jsToLower i.name == jsToLower ing.name)
        = false := by
      rw [List.any_eq_false]
      intro i hi
      simp [hfreshname i hi]
    refine ⟨fun i hi => Nat.ne_of_lt (hsi.ingBound i hi), ?_⟩
    rw [handleIngredientsAdd_fresh st now conn ing info s hc hs hlive hdup]
    exact ⟨_, JsMap.get_set_self _ _ _, rfl, rfl⟩

/-- Witness for C6: in `c2a` (which holds `"salt"`), re-adding `"SALT"` is a
silent no-op, while adding `"Pepper"` appends a record with the fresh server
id `1`. -/
theorem claim6_witness :
    handleIngredientsAdd c2a 0 1 { id := 5, name := "SALT", addedBy := "U2", addedAt := 3 }
      = (c2a, [])
    ∧ ∃ s2, JsMap.get "S"
          (handleIngredientsAdd c2a 0 1
            { id := 7, name := "Pepper", addedBy := "U1", addedAt := 4 }).1.sessions = some s2
        ∧ s2.ingredients = c2as.ingredients ++
            [{ id := c2a.nextId, name := jsToLower "Pepper", addedBy := "U1", addedAt := 0 }]
        ∧ (handleIngredientsAdd c2a 0 1
            { id := 7, name := "Pepper", addedBy := "U1", addedAt := 4 }).1.nextId
          = c2a.nextId + 1 :=
  ⟨(claim6_ingredient_uniqueness c2a 0 1
      { id := 5, name := "SALT", addedBy := "U2", addedAt := 3 }
      ⟨"U1", "S", "Alice"⟩ c2as reachable_c2a (by decide) (by decide) (by decide)).2.1
      ⟨{ id := 0, name := "salt", addedBy := "U1", addedAt := 0 }, by decide, by decide⟩,
    ((claim6_ingredient_uniqueness c2a 0 1
      { id := 7, name := "Pepper", addedBy := "U1", addedAt := 4 }
      ⟨"U1", "S", "Alice"⟩ c2as reachable_c2a (by decide) (by decide) (by decide)).2.2.1
      (by decide)).2⟩

/-- C2 (amended): the disjointness of `blacklist` from the session's
lowercased ingredient names holds after a blacklist commit only when
`fromIngredients` is true and the two sets were already disjoint before the
command (the counterexample shows `fromIngredients = false` breaks it; since
`ingredients:add` does not consult the blacklist, prior disjointness is a
genuine extra assumption). -/
theorem claim2_blacklist_disjoint (st : ServerState) (now conn : Nat)
    (name : String) (info : ClientInfo) (s : Session)
    (hreach : Reachable st)
    (hc : JsMap.get conn st.clients = some info)
    (hs : JsMap.get info.sessionId st.sessions = some s)
    (hlive : ¬ now - s.lastActivity > SESSION_TIMEOUT)
    (hdisj : ∀ b ∈ s.blacklist, ∀ i ∈ s.ingredients, jsToLower i.name ≠ b) :
    ∃ s2, JsMap.get info.sessionId
        (handleIngredientsBlacklist st now conn name true).1.sessions = some s2
      ∧ ∀ b ∈ s2.blacklist, ∀ i ∈ s2.ingredients, jsToLower i.name ≠ b := by
  have hsi := inv_of_reachable hreach (info.sessionId, s)
    (JsMap.get_eq_some_mem _ _ _ hs)
  rw [handleIngredientsBlacklist_live st now conn name true info s hc hs hlive]
  refine ⟨_, JsMap.get_set_self _ _ _, ?_⟩
  intro b hb i hi
  have hi2 : i ∈ blacklistRemove (jsToLower name) s.ingredients := hi
  have hnd2 : (s.ingredients.map fun i => jsToLower i.name).Nodup := by
    rw [List.map_congr_left fun i hi => hsi.ingLow i hi]
    exact hsi.ingNames
  have hrem := blacklistRemove_no_match (jsToLower name) s.ingredients hnd2 i hi2
  have hiorig : i ∈ s.ingredients := (blacklistRemove_sublist _ _).mem hi2
  by_cases hbold : b ∈ s.blacklist
  · exact hdisj b hbold i hiorig
  · have hbnew : b = jsToLower name := by
      by_cases hcont : s.blacklist.contains (jsToLower name) = true
      · rw [if_pos hcont] at hb
        exact absurd hb hbold
      · rw [if_neg hcont] at hb
        rcases List.mem_append.mp hb with h3 | h3
        · exact absurd h3 hbold
        · simpa using h3
    rw [hbnew]
    exact hrem

/-- Counterexample to C2 as stated: in the reachable state `c2a` the session
holds the ingredient `"salt"`; the command `ingredients:blacklist {"SALT",
fromIngredients: false}` commits and leaves `"salt"` both in the blacklist
and among the (lowercased) ingredient names — the sets are not disjoint. -/
theorem claim2_counterexample :
    Reachable c2b
    ∧ "salt" ∈ c2s.blacklist
    ∧ "salt" ∈ c2s.ingredients.map fun i => jsToLower i.name :=
  ⟨reachable_c2b, by decide, by decide⟩

/-- Witness for C2: blacklisting `"SALT"` with `fromIngredients = true` in
`c2a` keeps the two sets disjoint. -/
theorem claim2_witness :
    ∃ s2, JsMap.get "S"
        (handleIngredientsBlacklist c2a 0 1 "SALT" true).1.sessions = some s2
      ∧ ∀ b ∈ s2.blacklist, ∀ i ∈ s2.ingredients, jsToLower i.name ≠ b :=
  claim2_blacklist_disjoint c2a 0 1 "SALT" ⟨"U1", "S", "Alice"⟩ c2as
    reachable_c2a (by decide) (by decide) (by decide) (by decide)

/-- C4 (amended): only `session:join` performs the already-connected check —
with the `userId` bound to a different live connection it fails with
`session:error "User already connected from another client"` and leaves the
state untouched. `session:create` never consults the registry: for a fresh
`sessionId` it creates the session and silently rebinds the user's
connection, whatever the registry held. -/
theorem claim4_join_only_check (st : ServerState) (now conn c0 : Nat)
    (sid uid uname : String) (s : Session) :
    (JsMap.get sid st.sessions = some s →
      ¬ now - s.lastActivity > SESSION_TIMEOUT →
      JsMap.get uid st.userConnections = some c0 → c0 ≠ conn →
      handleSessionJoin st now conn sid uid uname =
        (st, [(conn, .sessionError "User already connected from another client")]))
    ∧ (JsMap.get sid st.sessions = none →
      handleSessionCreate st now conn sid uid uname =
        ({ st with
            sessions := (JsMap.set sid (createSession sid uid uname now) st.sessions)
            clients := (JsMap.set conn ⟨uid, sid, uname⟩ st.clients)
            userConnections := (JsMap.set uid conn st.userConnections) },
          [(conn, .sessionCreated (createSession sid uid uname now))])) :=
  ⟨fun hs hlive huc hne =>
      handleSessionJoin_conflict st now conn sid uid uname s c0 hs hlive huc hne,
    fun hnone => handleSessionCreate_new st now conn sid uid uname hnone⟩

/-- Counterexample to C4 as stated: in the reachable state `c4pre`, user
`"U1"` is bound to the live connection `1`, yet `session:create` for the
fresh session `"T"` from connection `2` succeeds — it replies
`session:created` (not the required `session:error`), creates the session,
and rebinds `"U1"` to connection `2`. -/
theorem claim4_counterexample :
    Reachable c4pre
    ∧ JsMap.get "U1" c4pre.userConnections = some 1
    ∧ (handleSessionCreate c4pre 0 2 "T" "U1" "Alice").2
        = [(2, Event.sessionCreated (createSession "T" "U1" "Alice" 0))]
    ∧ JsMap.get "T" (handleSessionCreate c4pre 0 2 "T" "U1" "Alice").1.sessions
        = some (createSession "T" "U1" "Alice" 0)
    ∧ JsMap.get "U1" (handleSessionCreate c4pre 0 2 "T" "U1" "Alice").1.userConnections
        = some 2 :=
  ⟨reachable_c4pre, by decide, by decide, by decide, by decide⟩

/-- Witness for C4: `session:join` for `"S"` as `"U1"` from connection `2`
fails with the already-connected error and mutates nothing. -/
theorem claim4_witness :
    handleSessionJoin c4pre 0 2 "S" "U1" "Bob"
      = (c4pre, [(2, Event.sessionError "User already connected from another client")]) :=
  (claim4_join_only_check c4pre 0 2 1 "S" "U1" "Bob" wS).1
    (by decide) (by decide) (by decide) (by decide)

/-- C7: a `context:update` from a registered non-host caller is silently
dropped — no event, state unchanged; from the host it overwrites `context`
and broadcasts `context:updated` to exactly the live connections of the
session other than the host's. -/
theorem claim7_context_host_only (st : ServerState) (now conn : Nat)
    (context : String) (info : ClientInfo) (s : Session)
    (hc : JsMap.get conn st.clients = some info)
    (hs : JsMap.get info.sessionId st.sessions = some s)
    (hlive : ¬ now - s.lastActivity > SESSION_TIMEOUT) :
    (info.userId ≠ s.hostId →
      handleContextUpdate st now conn context = (st, []))
    ∧ (info.userId = s.hostId →
      (∃ s2, JsMap.get info.sessionId
          (handleContextUpdate st now conn context).1.sessions = some s2
        ∧ s2.context = context)
      ∧ (handleContextUpdate st now conn context).2 =
          ((st.clients.filter fun e =>
            e.2.sessionId == info.sessionId && !(some info.userId == some e.2.userId)
              && st.openConns.contains e.1).map fun e =>
            (e.1, Event.contextUpdated context))
      ∧ (∀ c ci, (c, ci) ∈ st.clients → ci.sessionId = info.sessionId →
          ci.userId ≠ info.userId → c ∈ st.openConns →
          (c, Event.contextUpdated context) ∈ (handleContextUpdate st now conn context).2)) := by
  constructor
  · exact fun hnh => handleContextUpdate_nonhost st now conn context info s hc hs hlive hnh
  · intro hh
    rw [handleContextUpdate_host st now conn context info s hc hs hlive hh]
    refine ⟨⟨_, JsMap.get_set_self _ _ _, rfl⟩, rfl, ?_⟩
    intro c ci hmem hsid huid hopen
    refine sends_mem hmem hsid ?_ hopen
    rw [beq_eq_false_iff_ne]
    exact fun h2 => huid (Option.some.inj h2).symm

/-- Witness for C7: in `c5st` (host on connection `2`, old connection `1`
still registered) the host's `context:update` stores the context and sends
`context:updated` to connection `1` but not to the host's own connection. -/
theorem claim7_witness :
    (∃ s2, JsMap.get "S" (handleContextUpdate c5st 0 2 "dessert").1.sessions = some s2
      ∧ s2.context = "dessert")
    ∧ (handleContextUpdate c5st 0 2 "dessert").2 =
        ((c5st.clients.filter fun e =>
          e.2.sessionId == "S" && !(some "U1" == some e.2.userId)
            && c5st.openConns.contains e.1).map fun e =>
          (e.1, Event.contextUpdated "dessert"))
    ∧ (∀ c ci, (c, ci) ∈ c5st.clients → ci.sessionId = "S" →
        ci.userId ≠ "U1" → c ∈ c5st.openConns →
        (c, Event.contextUpdated "dessert") ∈ (handleContextUpdate c5st 0 2 "dessert").2) :=
  (claim7_context_host_only c5st 0 2 "dessert" ⟨"U1", "S", "Alice"⟩
    (apSession wS 0 "U1" "Alice") (by decide) (by decide) (by decide)).2 (by decide)

/-- C5 (amended): on host rejoin via `session:create`, the host's participant
record is set connected with `reconnectedAt` stamped, the `userId → connection`
registry is rebound to the new connection, the caller gets `session:created`
with the updated snapshot first, and `session:participant:joined` goes to the
other live connections of the session — but the old connection's entry in the
per-connection client registry survives (last conjunct), so it keeps receiving
the session's broadcasts until it disconnects, contrary to the claim's
parenthetical. -/
theorem claim5_host_rejoin (st : ServerState) (now conn : Nat)
    (sid uid uname : String) (s : Session)
    (hs : JsMap.get sid st.sessions = some s)
    (hlive : ¬ now - s.lastActivity > SESSION_TIMEOUT)
    (hhost : s.hostId = uid)
    (hp : (s.participants.any fun p => p.id == uid) = true) :
    ∃ s2, JsMap.get sid (handleSessionCreate st now conn sid uid uname).1.sessions = some s2
      ∧ (∃ p2, s2.participants.find? (fun p => p.id == uid) = some p2
          ∧ p2.isConnected = true ∧ p2.reconnectedAt = some now)
      ∧ JsMap.get uid (handleSessionCreate st now conn sid uid uname).1.userConnections
          = some conn
      ∧ (handleSessionCreate st now conn sid uid uname).2.head?
          = some (conn, .sessionCreated s2)
      ∧ (∀ c ci, (c, ci) ∈ st.clients → c ≠ conn → ci.sessionId = sid →
          ci.userId ≠ uid → c ∈ st.openConns →
          (c, Event.participantJoined uid uname none (some now))
            ∈ (handleSessionCreate st now conn sid uid uname).2)
      ∧ (∀ c ci, (c, ci) ∈ st.clients → c ≠ conn →
          (c, ci) ∈ (handleSessionCreate st now conn sid uid uname).1.clients) := by
  rw [handleSessionCreate_rejoin st now conn sid uid uname s hs hlive hhost]
  refine ⟨apSession s now uid uname, JsMap.get_set_self _ _ _, ?_,
    JsMap.get_set_self _ _ _, rfl, ?_, ?_⟩
  · have hex : ∃ p0, s.participants.find? (fun p => p.id == uid) = some p0 := by
      obtain ⟨x, hx, hpx⟩ := List.any_eq_true.mp hp
      cases hfind : s.participants.find? (fun p => p.id == uid) with
      | none => exact absurd (List.find?_eq_none.mp hfind x hx) (by simp [hpx])
      | some p0 => exact ⟨p0, rfl⟩
    obtain ⟨p0, hfind⟩ := hex
    have hap : (apSession s now uid uname).participants =
        updateFirst (fun p => p.id == uid)
          (fun p => { p with isConnected := true, reconnectedAt := some now })
          s.participants := by
      unfold apSession
      rw [if_pos hp]
    refine ⟨{ p0 with isConnected := true, reconnectedAt := some now }, ?_, rfl, rfl⟩
    rw [hap, find?_updateFirst (fun p => p.id == uid)
      (fun p => { p with isConnected := true, reconnectedAt := some now })
      s.participants (fun a ha => ha), hfind]
    rfl
  · intro c ci hmem hne hsid huid hopen
    apply List.mem_cons_of_mem
    refine sends_mem
      (JsMap.mem_set_of_ne conn ⟨uid, sid, uname⟩ st.clients (c, ci) hmem hne)
      hsid ?_ hopen
    rw [beq_eq_false_iff_ne]
    exact fun h2 => huid (Option.some.inj h2).symm
  · intro c ci hmem hne
    exact JsMap.mem_set_of_ne conn ⟨uid, sid, uname⟩ st.clients (c, ci) hmem hne

/-- Counterexample to C5's parenthetical as stated: after the host rejoin
`c5st` (new connection `2`, registry rebound to `2`), the old connection `1`
is still registered for the session and still receives the session's
broadcasts — here the `ingredients:added` event of a later command. -/
theorem claim5_counterexample :
    Reachable c5st
    ∧ JsMap.get "U1" c5st.userConnections = some 2
    ∧ (1, (⟨"U1", "S", "Alice"⟩ : ClientInfo)) ∈ c5st.clients
    ∧ (1, Event.ingredientsAdded { id := 0, name := "salt", addedBy := "U1", addedAt := 0 })
        ∈ (handleIngredientsAdd c5st 0 2
            { id := 0, name := "Salt", addedBy := "U1", addedAt := 0 }).2 :=
  ⟨reachable_c5st, by decide, by decide, by decide⟩

/-- Witness for C5: the host rejoin from connection `2` in `c4pre`. -/
theorem claim5_witness :
    ∃ s2, JsMap.get "S" (handleSessionCreate c4pre 0 2 "S" "U1" "Alice").1.sessions = some s2
      ∧ (∃ p2, s2.participants.find? (fun p => p.id == "U1") = some p2
          ∧ p2.isConnected = true ∧ p2.reconnectedAt = some 0)
      ∧ JsMap.get "U1" (handleSessionCreate c4pre 0 2 "S" "U1" "Alice").1.userConnections
          = some 2
      ∧ (handleSessionCreate c4pre 0 2 "S" "U1" "Alice").2.head?
          = some (2, .sessionCreated s2)
      ∧ (∀ c ci, (c, ci) ∈ c4pre.clients → c ≠ 2 → ci.sessionId = "S" →
          ci.userId ≠ "U1" → c ∈ c4pre.openConns →
          (c, Event.participantJoined "U1" "Alice" none (some 0))
            ∈ (handleSessionCreate c4pre 0 2 "S" "U1" "Alice").2)
      ∧ (∀ c ci, (c, ci) ∈ c4pre.clients → c ≠ 2 →
          (c, ci) ∈ (handleSessionCreate c4pre 0 2 "S" "U1" "Alice").1.clients) :=
  claim5_host_rejoin c4pre 0 2 "S" "U1" "Alice" wS
    (by decide) (by decide) (by decide) (by decide)

/-- C9: adding a not-yet-present ingredient name and then removing it by the
server-assigned id returned by the add (`st.nextId` in the model) restores
the session's ingredient sequence exactly. The id-freshness hypothesis is
the uuid assumption: the new id differs from every stored one. -/
theorem claim9_add_remove_roundtrip (st : ServerState) (now now2 conn : Nat)
    (ing : Ingredient) (info : ClientInfo) (s : Session)
    (hc : JsMap.get conn st.clients = some info)
    (hs : JsMap.get info.sessionId st.sessions = some s)
    (hlive : ¬ now - s.lastActivity > SESSION_TIMEOUT)
    (hlive2 : ¬ now2 - now > SESSION_TIMEOUT)
    (hname : ∀ i ∈ s.ingredients, jsToLower i.name ≠ jsToLower ing.name)
    (hfresh : ∀ i ∈ s.ingredients, i.id ≠ st.nextId) :
    ∃ s2, JsMap.get info.sessionId
        (handleIngredientsRemove (handleIngredientsAdd st now conn ing).1
          now2 conn st.nextId).1.sessions = some s2
      ∧ s2.ingredients = s.ingredients := by
  have hdup : (s.ingredients.any fun i => jsToLower i.name == jsToLower ing.name)
      = false := by
    rw [List.any_eq_false]
    intro i hi
    simp [hname i hi]
  rw [handleIngredientsAdd_fresh st now conn ing info s hc hs hlive hdup]
  have hrf : removeFirst (fun i => i.id == st.nextId)
      (s.ingredients ++
        [{ id := st.nextId, name := jsToLower ing.name,
           addedBy := ing.addedBy, addedAt := now }]) =
      some ({ id := st.nextId, name := jsToLower ing.name,
              addedBy := ing.addedBy, addedAt := now }, s.ingredients) :=
    removeFirst_append_last (fun i hi => by simp [hfresh i hi]) (by simp)
  dsimp only
  rw [handleIngredientsRemove_found
    { st with
      sessions := (JsMap.set info.sessionId
        { s with
          ingredients := (s.ingredients ++
            [{ id := st.nextId, name := jsToLower ing.name,
               addedBy := ing.addedBy, addedAt := now }])
          lastActivity := now } st.sessions)
      nextId := st.nextId + 1 } now2 conn st.nextId info
    { s with
      ingredients := (s.ingredients ++
        [{ id := st.nextId, name := jsToLower ing.name,
           addedBy := ing.addedBy, addedAt := now }])
      lastActivity := now } _ _ hc
    (JsMap.get_set_self _ _ _) hlive2 hrf]
  exact ⟨_, JsMap.get_set_self _ _ _, rfl⟩

/-- Witness for C9: in `c2a` (ingredients `["salt"]`, uuid supply at `1`),
adding `"Pepper"` and removing id `1` restores `["salt"]`. -/
theorem claim9_witness :
    ∃ s2, JsMap.get "S"
        (handleIngredientsRemove
          (handleIngredientsAdd c2a 0 1
            { id := 3, name := "Pepper", addedBy := "U1", addedAt := 0 }).1
          0 1 c2a.nextId).1.sessions = some s2
      ∧ s2.ingredients = c2as.ingredients :=
  claim9_add_remove_roundtrip c2a 0 0 1
    { id := 3, name := "Pepper", addedBy := "U1", addedAt := 0 }
    ⟨"U1", "S", "Alice"⟩ c2as (by decide) (by decide) (by decide) (by decide)
    (by decide) (by decide)

/-- C10: a `recipes:vote` from a registered caller in a live session whose
`recipeId` matches no recipe still succeeds: the non-neutral vote is stored
under `votes[userId][recipeId]`, every existing recipe keeps its `votes` and
`voterIds` (indeed the whole `recipes` array is unchanged), and
`recipes:voted` carrying that `recipeId` is delivered to every live
connection of the session. -/
theorem claim10_vote_unknown_recipe (st : ServerState) (now conn rid : Nat)
    (vt : VoteType) (info : ClientInfo) (s : Session)
    (hreach : Reachable st)
    (hc : JsMap.get conn st.clients = some info)
    (hs : JsMap.get info.sessionId st.sessions = some s)
    (hlive : ¬ now - s.lastActivity > SESSION_TIMEOUT)
    (hno : ∀ r ∈ s.recipes, r.id ≠ rid)
    (hvt : vt ≠ VoteType.neutral) :
    ∃ s2, JsMap.get info.sessionId
        (handleRecipesVote st now conn rid vt).1.sessions = some s2
      ∧ JsMap.get rid ((JsMap.get info.userId s2.votes).getD []) = vt.toVote
      ∧ (vt.toVote).isSome = true
      ∧ s2.recipes = s.recipes
      ∧ (∀ c ci, (c, ci) ∈ st.clients → ci.sessionId = info.sessionId →
          c ∈ st.openConns →
          (c, Event.recipesVoted rid vt info.userId s2.recipes)
            ∈ (handleRecipesVote st now conn rid vt).2) := by
  have hsi := inv_of_reachable hreach (info.sessionId, s)
    (JsMap.get_eq_some_mem _ _ _ hs)
  rw [handleRecipesVote_live st now conn rid vt info s hc hs hlive]
  have hrecipes : s.recipes.map (recomputeRecipe (JsMap.set info.userId
      (applyVote vt rid ((JsMap.get info.userId s.votes).getD [])) s.votes))
      = s.recipes := by
    have hone : ∀ r ∈ s.recipes, recomputeRecipe (JsMap.set info.userId
        (applyVote vt rid ((JsMap.get info.userId s.votes).getD [])) s.votes) r
        = id r := by
      intro r hr
      exact recompute_set_id _ _ _ _
        (applyVote_get_ne vt rid r.id _ (hno r hr))
        (hsi.tally r hr).1 (hsi.tally r hr).2
    rw [List.map_congr_left hone, List.map_id]
  have hvote : JsMap.get rid ((JsMap.get info.userId (JsMap.set info.userId
      (applyVote vt rid ((JsMap.get info.userId s.votes).getD [])) s.votes)).getD [])
      = vt.toVote := by
    rw [JsMap.get_set_self]
    exact applyVote_get_self vt rid _ hvt
  refine ⟨_, JsMap.get_set_self _ _ _, hvote, ?_, hrecipes, ?_⟩
  · cases vt with
    | up => rfl
    | down => rfl
    | neutral => exact absurd rfl hvt
  · intro c ci hmem hsid hopen
    exact sends_mem hmem hsid rfl hopen

/-- Witness for C10: voting `up` on the unknown recipe id `7` in the
reachable state `w4`. -/
theorem claim10_witness :
    ∃ s2, JsMap.get "S" (handleRecipesVote w4 0 1 7 VoteType.up).1.sessions = some s2
      ∧ JsMap.get 7 ((JsMap.get "U1" s2.votes).getD []) = VoteType.up.toVote
      ∧ (VoteType.up.toVote).isSome = true
      ∧ s2.recipes = w4s.recipes
      ∧ (∀ c ci, (c, ci) ∈ w4.clients → ci.sessionId = "S" →
          c ∈ w4.openConns →
          (c, Event.recipesVoted 7 VoteType.up "U1" s2.recipes)
            ∈ (handleRecipesVote w4 0 1 7 VoteType.up).2) :=
  claim10_vote_unknown_recipe w4 0 1 7 VoteType.up ⟨"U1", "S", "Alice"⟩ w4s
    reachable_w4 (by decide) (by decide) (by decide) (by decide) (by decide)

/-- C8 (amended): voting `up` then `neutral` on the same recipe by the same
user restores the whole `recipes` array (hence every tally and voter list)
to its pre-state, provided the user held no recorded vote on that recipe
beforehand and the stored tallies matched the vote table — both true in any
reachable state before the user's first vote on the recipe. Without the
no-prior-vote proviso the round trip erases the old vote and lands
elsewhere (see the counterexample). -/
theorem claim8_vote_roundtrip (st : ServerState) (now now2 conn rid : Nat)
    (info : ClientInfo) (s : Session)
    (hc : JsMap.get conn st.clients = some info)
    (hs : JsMap.get info.sessionId st.sessions = some s)
    (hlive : ¬ now - s.lastActivity > SESSION_TIMEOUT)
    (hlive2 : ¬ now2 - now > SESSION_TIMEOUT)
    (htally : ∀ r ∈ s.recipes,
      r.votes = ((upVoters r.id s.votes).length : Int)
          - ((downVoters r.id s.votes).length : Int)
        ∧ r.voterIds = voterList r.id s.votes)
    (hnovote : JsMap.get rid ((JsMap.get info.userId s.votes).getD []) = none) :
    ∃ s2, JsMap.get info.sessionId
        (handleRecipesVote (handleRecipesVote st now conn rid VoteType.up).1
          now2 conn rid VoteType.neutral).1.sessions = some s2
      ∧ s2.recipes = s.recipes := by
  rw [handleRecipesVote_live st now conn rid VoteType.up info s hc hs hlive]
  dsimp only
  have ha : applyVote VoteType.up rid ((JsMap.get info.userId s.votes).getD [])
      = (JsMap.get info.userId s.votes).getD [] ++ [(rid, Vote.up)] := by
    show JsMap.set rid Vote.up
        (JsMap.erase rid ((JsMap.get info.userId s.votes).getD [])) = _
    rw [JsMap.erase_of_get_none _ _ hnovote, JsMap.set_of_get_none _ _ _ hnovote]
  rw [ha]
  rw [handleRecipesVote_live
    { st with sessions := (JsMap.set info.sessionId
        { s with
          votes := (JsMap.set info.userId
            ((JsMap.get info.userId s.votes).getD [] ++ [(rid, Vote.up)]) s.votes)
          recipes := (s.recipes.map (recomputeRecipe (JsMap.set info.userId
            ((JsMap.get info.userId s.votes).getD [] ++ [(rid, Vote.up)]) s.votes)))
          lastActivity := now } st.sessions) }
    now2 conn rid VoteType.neutral info
    { s with
      votes := (JsMap.set info.userId
        ((JsMap.get info.userId s.votes).getD [] ++ [(rid, Vote.up)]) s.votes)
      recipes := (s.recipes.map (recomputeRecipe (JsMap.set info.userId
        ((JsMap.get info.userId s.votes).getD [] ++ [(rid, Vote.up)]) s.votes)))
      lastActivity := now }
    hc (JsMap.get_set_self _ _ _) hlive2]
  dsimp only
  rw [JsMap.get_set_self info.userId
    ((JsMap.get info.userId s.votes).getD [] ++ [(rid, Vote.up)]) s.votes]
  simp only [Option.getD_some]
  have hb : applyVote VoteType.neutral rid
      ((JsMap.get info.userId s.votes).getD [] ++ [(rid, Vote.up)])
      = (JsMap.get info.userId s.votes).getD [] := by
    show JsMap.erase rid
        ((JsMap.get info.userId s.votes).getD [] ++ [(rid, Vote.up)]) = _
    exact JsMap.erase_append_self _ _ _ hnovote
  rw [hb, JsMap.set_set info.userId
    ((JsMap.get info.userId s.votes).getD [] ++ [(rid, Vote.up)])
    ((JsMap.get info.userId s.votes).getD []) s.votes]
  refine ⟨_, JsMap.get_set_self _ _ _, ?_⟩
  show (s.recipes.map (recomputeRecipe (JsMap.set info.userId
      ((JsMap.get info.userId s.votes).getD [] ++ [(rid, Vote.up)]) s.votes))).map
      (recomputeRecipe (JsMap.set info.userId
        ((JsMap.get info.userId s.votes).getD []) s.votes)) = s.recipes
  rw [List.map_map]
  have hone : ∀ r ∈ s.recipes,
      (recomputeRecipe (JsMap.set info.userId
          ((JsMap.get info.userId s.votes).getD []) s.votes)
        ∘ recomputeRecipe (JsMap.set info.userId
          ((JsMap.get info.userId s.votes).getD [] ++ [(rid, Vote.up)]) s.votes)) r
      = id r := by
    intro r hr
    show recomputeRecipe _ (recomputeRecipe _ r) = r
    rw [recomputeRecipe_comp]
    exact recompute_set_id info.userId _ s.votes r rfl
      (htally r hr).1 (htally r hr).2
  rw [List.map_congr_left hone, List.map_id]

/-- Counterexample to C8 as stated: in the reachable state `c8b` the user
`"U1"` already holds a `down` vote on the sole recipe, whose tally is
`(-1, ["U1"])`; after voting `up` then `neutral` the tally is `(0, [])`,
not the pre-state. -/
theorem claim8_counterexample :
    Reachable c8b ∧ Reachable c8c
    ∧ c8bs.recipes.map (fun r => (r.votes, r.voterIds)) = [(-1, ["U1"])]
    ∧ c8cs.recipes.map (fun r => (r.votes, r.voterIds)) = [(0, [])] :=
  ⟨reachable_c8b, reachable_c8c, by decide, by decide⟩

/-- Witness for C8: in `w3` (one recipe, no votes yet) the up-then-neutral
round trip restores the recipes array. -/
theorem claim8_witness :
    ∃ s2, JsMap.get "S"
        (handleRecipesVote (handleRecipesVote w3 0 1 0 VoteType.up).1
          0 1 0 VoteType.neutral).1.sessions = some s2
      ∧ s2.recipes = w3s.recipes :=
  claim8_vote_roundtrip w3 0 0 1 0 ⟨"U1", "S", "Alice"⟩ w3s
    (by decide) (by decide) (by decide) (by decide) (by decide) (by decide)

end PantryParty
